import Mathlib

/-!
# Shallow embedding of the pyxero client library (src/xero/)

This file embeds the core logic of the `xero` Python package — the
`Manager` resource layer (`manager.py`) and the credential classes
(`auth.py`) — as executable Lean definitions, and proves properties of
those definitions.

Conventions of the embedding:
* Python strings are `String`; helper functions named `py...` model the
  Python builtins used by the source (`str.strip`, `str.lower`, `%`
  formatting of scalars).
* Python `dict`s are ordered association lists (`List (String × α)`);
  assignment `d[k] = v` is `setKey`, which overwrites in place or appends.
* Fallible Python code (exceptions) returns `Option`/`Except`, or a
  `PyErr` component for methods that mutate state before raising.
* Third-party collaborators (`dateutil.parser.parse`, `urlparse.parse_qs`,
  `urllib.quote`, `datetime.strftime`) are modelled as executable
  functions that are faithful on the value domain the source feeds them.
-/

/-! ## Python string primitives -/

/-- The whitespace characters stripped by Python's `str.strip()`. -/
def isPySpace (c : Char) : Bool :=
  c == ' ' || c == '\t' || c == '\n' || c == '\r' ||
    c == Char.ofNat 11 || c == Char.ofNat 12

def pyStripChars (cs : List Char) : List Char :=
  (((cs.dropWhile isPySpace).reverse).dropWhile isPySpace).reverse

/-- Python `str.strip()` (no arguments: strips whitespace at both ends). -/
def pyStrip (s : String) : String :=
  ⟨pyStripChars s.data⟩

/-- Python `str.lower()` (ASCII is all the source needs). -/
def pyLower (s : String) : String :=
  ⟨s.data.map Char.toLower⟩

/-! ## Decimal digit rendering and reading -/

def digitChar (d : Nat) : Char := Char.ofNat (48 + d)

/-- The decimal digit string of `n`, most significant digit first. -/
def natChars (n : Nat) : List Char :=
  if n = 0 then ['0'] else ((Nat.digits 10 n).reverse).map digitChar

/-- Zero-pad to width `w`, as Python's `"%0wd"` formatting does. -/
def padChars (w n : Nat) : List Char :=
  List.replicate (w - (natChars n).length) '0' ++ natChars n

/-- Read a digit string back to a number (accumulator style). -/
def charsToNat (cs : List Char) : Nat :=
  cs.foldl (fun acc c => 10 * acc + (c.toNat - 48)) 0

theorem toNat_digitChar (d : Nat) (h : d < 10) : (digitChar d).toNat = 48 + d := by
  interval_cases d <;> decide

theorem isDigit_digitChar (d : Nat) (h : d < 10) : (digitChar d).isDigit = true := by
  interval_cases d <;> decide

theorem charsToNat_digits (L : List Nat) (hL : ∀ d ∈ L, d < 10) :
    charsToNat ((L.reverse).map digitChar) = Nat.ofDigits 10 L := by
  induction L with
  | nil => simp [charsToNat]
  | cons d L ih =>
      have hd : d < 10 := hL d (by simp)
      have hTail : ∀ x ∈ L, x < 10 := fun x hx => hL x (by simp [hx])
      simp only [List.reverse_cons, List.map_append, List.map_cons, List.map_nil]
      simp only [charsToNat, List.foldl_append, List.foldl_cons, List.foldl_nil]
      have := ih hTail
      simp only [charsToNat] at this
      rw [this, Nat.ofDigits_cons, toNat_digitChar d hd]
      have : 48 + d - 48 = d := by omega
      rw [this]
      ring

theorem charsToNat_natChars (n : Nat) : charsToNat (natChars n) = n := by
  by_cases h : n = 0
  · simp [h, natChars, charsToNat]
  · have hd : ∀ d ∈ Nat.digits 10 n, d < 10 := fun d hdm =>
      Nat.digits_lt_base (by norm_num) hdm
    simp only [natChars, h, if_false]
    rw [charsToNat_digits _ hd, Nat.ofDigits_digits]

theorem charsToNat_zeros_append (k : Nat) (cs : List Char) :
    charsToNat (List.replicate k '0' ++ cs) = charsToNat cs := by
  induction k with
  | zero => simp
  | succ k ih =>
      simp only [List.replicate_succ, List.cons_append]
      simpa [charsToNat] using ih

theorem charsToNat_padChars (w n : Nat) : charsToNat (padChars w n) = n := by
  rw [padChars, charsToNat_zeros_append, charsToNat_natChars]

theorem natChars_ne_nil (n : Nat) : natChars n ≠ [] := by
  by_cases h : n = 0
  · simp [h, natChars]
  · have hne : Nat.digits 10 n ≠ [] := Nat.digits_ne_nil_iff_ne_zero.mpr h
    simp only [natChars, h, if_false]
    intro hcon
    simp at hcon
    exact hne hcon

theorem padChars_ne_nil (w n : Nat) : padChars w n ≠ [] := by
  simp [padChars, natChars_ne_nil n]

theorem natChars_all_digit (n : Nat) : ∀ c ∈ natChars n, c.isDigit := by
  by_cases h : n = 0
  · simp [h, natChars]
  · simp only [natChars, h, if_false]
    intro c hc
    obtain ⟨d, hd, rfl⟩ := List.mem_map.mp hc
    exact isDigit_digitChar d (Nat.digits_lt_base (by norm_num) (List.mem_reverse.mp hd))

theorem padChars_all_digit (w n : Nat) : ∀ c ∈ padChars w n, c.isDigit := by
  intro c hc
  rcases List.mem_append.mp hc with h | h
  · have := List.eq_of_mem_replicate h
    subst this
    decide
  · exact natChars_all_digit n c h

/-! ## Date and time values

`manager.py` stores `datetime.datetime` / `datetime.date` objects in
decoded records, serialises them with Python's `str()`, and re-parses
text with `dateutil.parser.parse`. -/

structure PyDateTime where
  year : Nat
  month : Nat
  day : Nat
  hour : Nat
  minute : Nat
  second : Nat
  deriving DecidableEq, Repr

structure PyDate where
  year : Nat
  month : Nat
  day : Nat
  deriving DecidableEq, Repr

/-- Python's `datetime.date()` accessor on a `datetime` object. -/
def PyDateTime.date (t : PyDateTime) : PyDate :=
  ⟨t.year, t.month, t.day⟩

def pyStrDateTimeChars (t : PyDateTime) : List Char :=
  padChars 4 t.year ++ '-' :: (padChars 2 t.month ++ '-' :: (padChars 2 t.day ++
    ' ' :: (padChars 2 t.hour ++ ':' :: (padChars 2 t.minute ++ ':' :: padChars 2 t.second))))

/-- Python `str()` of a `datetime.datetime` with zero microseconds:
`"YYYY-MM-DD HH:MM:SS"`. -/
def pyStrDateTime (t : PyDateTime) : String :=
  ⟨pyStrDateTimeChars t⟩

/-- Python `str()` of a `datetime.date`: `"YYYY-MM-DD"`. -/
def pyStrDate (d : PyDate) : String :=
  ⟨padChars 4 d.year ++ '-' :: (padChars 2 d.month ++ '-' :: padChars 2 d.day)⟩

/-- Split a character list into its leading digit run and the rest. -/
def spanDigits : List Char → List Char × List Char
  | [] => ([], [])
  | c :: cs =>
      if c.isDigit then
        let (a, b) := spanDigits cs
        (c :: a, b)
      else ([], c :: cs)

def parseYMD (cs : List Char) : Option (Nat × Nat × Nat × List Char) :=
  let (yd, r1) := spanDigits cs
  if yd.isEmpty then none else
  match r1 with
  | '-' :: r2 =>
      let (md, r3) := spanDigits r2
      if md.isEmpty then none else
      match r3 with
      | '-' :: r4 =>
          let (dd, r5) := spanDigits r4
          if dd.isEmpty then none else
          some (charsToNat yd, charsToNat md, charsToNat dd, r5)
      | _ => none
  | _ => none

def parseHMS (cs : List Char) : Option (Nat × Nat × Nat × List Char) :=
  let (hd, r1) := spanDigits cs
  if hd.isEmpty then none else
  match r1 with
  | ':' :: r2 =>
      let (md, r3) := spanDigits r2
      if md.isEmpty then none else
      match r3 with
      | ':' :: r4 =>
          let (sd, r5) := spanDigits r4
          if sd.isEmpty then none else
          some (charsToNat hd, charsToNat md, charsToNat sd, r5)
      | _ => none
  | _ => none

/-- Modelled from the spec: the third-party `dateutil.parser.parse`
("datetime fields: parsed timestamp; date fields: parsed date, date part
only").  The model parses exactly the `"YYYY-MM-DD"` and
`"YYYY-MM-DD HH:MM:SS"` shapes that Python's `str()` emits for the date
and datetime objects the manager serialises; anything else is a parse
failure. -/
def dateutilParse (s : String) : Option PyDateTime :=
  match parseYMD s.data with
  | none => none
  | some (y, mo, d, rest) =>
      match rest with
      | [] => some ⟨y, mo, d, 0, 0, 0⟩
      | ' ' :: r =>
          match parseHMS r with
          | some (h, mi, sec, []) => some ⟨y, mo, d, h, mi, sec⟩
          | _ => none
      | _ => none

theorem spanDigits_append (ds rest : List Char) (hds : ∀ c ∈ ds, c.isDigit)
    (hrest : match rest with | [] => True | c :: _ => ¬ c.isDigit) :
    spanDigits (ds ++ rest) = (ds, rest) := by
  induction ds with
  | nil =>
      match rest with
      | [] => rfl
      | c :: rs =>
          have hc : c.isDigit = false := by
            cases hval : c.isDigit
            · rfl
            · exact absurd hval hrest
          simp [spanDigits, hc]
  | cons c cs ih =>
      have hc : c.isDigit := hds c (by simp)
      have := ih (fun x hx => hds x (by simp [hx]))
      simp [spanDigits, hc, this]

theorem isEmpty_false_of_ne_nil {α : Type} {l : List α} (h : l ≠ []) : l.isEmpty = false := by
  cases l with
  | nil => exact absurd rfl h
  | cons a as => rfl

theorem parseYMD_pad (y mo d : Nat) (rest : List Char)
    (hrest : match rest with | [] => True | c :: _ => ¬ c.isDigit) :
    parseYMD (padChars 4 y ++ '-' :: (padChars 2 mo ++ '-' :: (padChars 2 d ++ rest))) =
      some (y, mo, d, rest) := by
  unfold parseYMD
  rw [spanDigits_append _ _ (padChars_all_digit 4 y) (by intro h; simp at h)]
  simp only [isEmpty_false_of_ne_nil (padChars_ne_nil 4 y)]
  rw [spanDigits_append _ _ (padChars_all_digit 2 mo) (by intro h; simp at h)]
  simp only [isEmpty_false_of_ne_nil (padChars_ne_nil 2 mo)]
  rw [spanDigits_append _ _ (padChars_all_digit 2 d) hrest]
  simp only [isEmpty_false_of_ne_nil (padChars_ne_nil 2 d)]
  simp [charsToNat_padChars]

theorem parseHMS_pad (h mi s : Nat) :
    parseHMS (padChars 2 h ++ ':' :: (padChars 2 mi ++ ':' :: padChars 2 s)) =
      some (h, mi, s, []) := by
  unfold parseHMS
  rw [show padChars 2 mi ++ ':' :: padChars 2 s =
        padChars 2 mi ++ ':' :: (padChars 2 s ++ []) by simp]
  rw [spanDigits_append _ _ (padChars_all_digit 2 h) (by intro hc; simp at hc)]
  simp only [isEmpty_false_of_ne_nil (padChars_ne_nil 2 h)]
  rw [spanDigits_append _ _ (padChars_all_digit 2 mi) (by intro hc; simp at hc)]
  simp only [isEmpty_false_of_ne_nil (padChars_ne_nil 2 mi)]
  rw [spanDigits_append _ _ (padChars_all_digit 2 s) trivial]
  simp only [isEmpty_false_of_ne_nil (padChars_ne_nil 2 s)]
  simp [charsToNat_padChars]

theorem dateutilParse_pyStrDateTime (t : PyDateTime) :
    dateutilParse (pyStrDateTime t) = some t := by
  unfold dateutilParse pyStrDateTime pyStrDateTimeChars
  rw [show padChars 2 t.day ++
        ' ' :: (padChars 2 t.hour ++ ':' :: (padChars 2 t.minute ++ ':' :: padChars 2 t.second)) =
        padChars 2 t.day ++
          (' ' :: (padChars 2 t.hour ++ ':' :: (padChars 2 t.minute ++ ':' :: padChars 2 t.second)))
      from rfl]
  rw [parseYMD_pad t.year t.month t.day _ (by intro h; simp at h)]
  simp [parseHMS_pad]

theorem dateutilParse_pyStrDate (d : PyDate) :
    dateutilParse (pyStrDate d) = some ⟨d.year, d.month, d.day, 0, 0, 0⟩ := by
  unfold dateutilParse pyStrDate
  rw [show padChars 4 d.year ++ '-' :: (padChars 2 d.month ++ '-' :: padChars 2 d.day) =
        padChars 4 d.year ++ '-' :: (padChars 2 d.month ++ '-' :: (padChars 2 d.day ++ []))
      by simp]
  rw [parseYMD_pad d.year d.month d.day [] trivial]

/-! ## URL-encoded form parsing and quoting

Models of Python 2's `urlparse.parse_qs` (with its default
`keep_blank_values=False`) and `urllib.quote` (with its default
`safe='/'`), the two url-codec collaborators the source uses. -/

def hexVal (c : Char) : Option Nat :=
  if 48 ≤ c.toNat ∧ c.toNat ≤ 57 then some (c.toNat - 48)
  else if 65 ≤ c.toNat ∧ c.toNat ≤ 70 then some (c.toNat - 55)
  else if 97 ≤ c.toNat ∧ c.toNat ≤ 102 then some (c.toNat - 87)
  else none

def pyUnquoteChars : List Char → List Char
  | [] => []
  | '%' :: a :: b :: rest =>
      match hexVal a, hexVal b with
      | some ha, some hb => Char.ofNat (16 * ha + hb) :: pyUnquoteChars rest
      | _, _ => '%' :: pyUnquoteChars (a :: b :: rest)
  | c :: rest => c :: pyUnquoteChars rest

/-- Python 2 `urllib.unquote_plus`: `+` to space, then percent-decoding,
leaving malformed escapes as-is. -/
def pyUnquotePlus (s : String) : String :=
  ⟨pyUnquoteChars (s.data.map (fun c => if c = '+' then ' ' else c))⟩

def splitOnChar (sep : Char) : List Char → List (List Char)
  | [] => [[]]
  | c :: rest =>
      match splitOnChar sep rest with
      | [] => if c = sep then [[], []] else [[c]]
      | chunk :: more =>
          if c = sep then [] :: chunk :: more else (c :: chunk) :: more

/-- Python `name_value.split('=', 1)`, as `none` when there is no `'='`. -/
def splitFirstEq : List Char → Option (List Char × List Char)
  | [] => none
  | '=' :: rest => some ([], rest)
  | c :: rest => (splitFirstEq rest).map (fun p => (c :: p.1, p.2))

/-- `dict[name].append(value)` grouping used by `parse_qs`. -/
def qsAppend (acc : List (String × List String)) (n v : String) :
    List (String × List String) :=
  if acc.any (fun p => p.1 == n) then
    acc.map (fun p => if p.1 == n then (p.1, p.2 ++ [v]) else p)
  else acc ++ [(n, [v])]

/-- Python 2 `urlparse.parse_qs`: split on `&`/`;`, drop empty chunks,
chunks without `'='` and blank values, percent-decode names and values,
group values by name. -/
def parse_qs (s : String) : List (String × List String) :=
  let chunks := (splitOnChar '&' s.data).flatMap (splitOnChar ';')
  chunks.foldl (fun acc chunk =>
    if chunk.isEmpty then acc
    else
      match splitFirstEq chunk with
      | none => acc
      | some (n, v) =>
          if v.isEmpty then acc
          else qsAppend acc (pyUnquotePlus ⟨n⟩) (pyUnquotePlus ⟨v⟩)) []

/-- `credentials.get(k)[0]` on a `parse_qs` result: the first value for a
present key (`none` both for an absent key and for an empty value list,
where Python raises). -/
def qsGet (payload : List (String × List String)) (k : String) : Option String :=
  match payload.find? (fun p => p.1 == k) with
  | some (_, v :: _) => some v
  | _ => none

def isQuoteSafe (c : Char) : Bool :=
  c.isAlpha || c.isDigit || c == '_' || c == '.' || c == '-' || c == '/'

def hexDigitChar (n : Nat) : Char :=
  if n < 10 then digitChar n else Char.ofNat (55 + n)

/-- Python 2 `urllib.quote` with its default `safe='/'`. -/
def urllibQuote (s : String) : String :=
  ⟨s.data.flatMap (fun c =>
    if isQuoteSafe c then [c]
    else ['%', hexDigitChar (c.toNat / 16), hexDigitChar (c.toNat % 16)])⟩

/-! ## Constants (`constants.py`) -/

def XERO_BASE_URL : String := "https://api.xero.com"
def XERO_API_URL : String := XERO_BASE_URL ++ "/api.xro/2.0"
def PARTNER_XERO_BASE_URL : String := "https://api-partner.network.xero.com"
def PARTNER_XERO_API_URL : String := PARTNER_XERO_BASE_URL ++ "/api.xro/2.0"

/-! ## The Manager resource layer (`manager.py`) -/

def DATETIME_FIELDS : List String :=
  ["UpdatedDateUTC", "Updated", "FullyPaidOnDate", "CreatedDateUTC",
   "ExpectedPaymentDate", "PlannedPaymentDate", "DateOfBirth", "StartDate",
   "EndDate"]

def DATE_FIELDS : List String := ["DueDate", "Date", "JournalDate"]

def BOOLEAN_FIELDS : List String := ["IsSupplier", "IsCustomer"]

def MULTI_LINES : List String :=
  ["LineItem", "Phone", "Address", "TaxRate",
   "JournalLine", "TrackingCategory", "Payment",
   "TimesheetLine", "NumberOfUnit", "EarningsRate", "DeductionType",
   "ReimbursementType", "LeaveType", "EarningsRates", "DeductionTypes",
   "ReimbursementTypes", "LeaveTypes", "Option"]

def PLURAL_EXCEPTIONS : List (String × String) :=
  [("Addresse", "Address"), ("TrackingCategories", "TrackingCategory")]

/-- `self.PLURAL_EXCEPTIONS.get(x, x)` -/
def pluralFix (s : String) : String :=
  match PLURAL_EXCEPTIONS.find? (fun p => p.1 == s) with
  | some p => p.2
  | none => s

structure Manager where
  name : String
  singular : String
  api_url : String
  deriving DecidableEq, Repr

/-- Python's `name[-1] == "s"` (false is unreachable-crash territory for
an empty name, which no resource has). -/
def lastIsS (name : String) : Bool :=
  name.data.getLast? == some 's'

/-- Python's `name[:len(name)-1]`. -/
def dropLastChar (name : String) : String :=
  ⟨name.data.dropLast⟩

/-- The singular-name derivation in `Manager.__init__` (manager.py:46-51):
an exception-table lookup **on the full name**, else strip a trailing
`"s"`, else the name itself. -/
def singularOf (name : String) : String :=
  if PLURAL_EXCEPTIONS.any (fun p => p.1 == name) then
    match PLURAL_EXCEPTIONS.find? (fun p => p.1 == name) with
    | some p => p.2
    | none => name
  else if lastIsS name then dropLastChar name
  else name

/-- `Manager.__init__(name, oauth, api_name)`: the payroll URL rewrite and
the singular derivation (the method-decoration loop is the shared execute
path, embedded separately). -/
def Manager.create (name : String) (oauth_api_url : String) (api_name : String) : Manager :=
  { name := name
    api_url :=
      if api_name == "payroll" then
        oauth_api_url.replace "api.xro/2.0" "payroll.xro/1.0"
      else oauth_api_url
    singular := singularOf name }

/-- **C4** (corrected): the derivation does look up the full name in the
exception table first and otherwise strips one trailing `"s"`, and the
`TrackingCategories` and `Invoices` examples hold — but the claimed
`singularOf("Addresses") == "Address"` is false: the table's key is
`"Addresse"` (the form already stripped by the XML encoder), so the
full-name lookup misses and `"Addresses"` merely loses its final `"s"`. -/
theorem singularOf_spec :
    (∀ n, singularOf n =
      (if PLURAL_EXCEPTIONS.any (fun p => p.1 == n) then
        (match PLURAL_EXCEPTIONS.find? (fun p => p.1 == n) with
         | some p => p.2
         | none => n)
       else if lastIsS n then dropLastChar n else n)) ∧
    singularOf "Addresses" = "Addresse" ∧
    singularOf "TrackingCategories" = "TrackingCategory" ∧
    singularOf "Invoices" = "Invoice" := by
  refine ⟨fun n => rfl, ?_, ?_, ?_⟩ <;> decide

/-- **C4** counterexample: the claim's example `singularOf("Addresses") ==
"Address"` fails on the code; the code yields `"Addresse"`. -/
theorem singularOf_Addresses_not_Address :
    singularOf "Addresses" ≠ "Address" ∧ singularOf "Addresses" = "Addresse" := by
  constructor <;> decide

/-! ## Filter values and predicate compilation (`Manager.filter`) -/

/-- A Python value passed as a keyword filter criterion. -/
inductive FVal where
  | s (v : String)
  | b (v : Bool)
  | dt (v : PyDateTime)
  | n (v : Int)
  deriving DecidableEq, Repr

/-- Python truthiness of a criterion value (`if kwargs[key]`, `if offset:`). -/
def pyTruthyF : FVal → Bool
  | .s v => v ≠ ""
  | .b v => v
  | .dt _ => true
  | .n v => v ≠ 0

/-- Python `str()` / `'%s' %` of a criterion value. -/
def pyStrF : FVal → String
  | .s v => v
  | .b true => "True"
  | .b false => "False"
  | .dt t => pyStrDateTime t
  | .n v => toString v

/-- `datetime.isoformat()`: `"YYYY-MM-DDTHH:MM:SS"` (zero microseconds). -/
def isoformat (t : PyDateTime) : String :=
  ⟨padChars 4 t.year ++ '-' :: (padChars 2 t.month ++ '-' :: (padChars 2 t.day ++
    'T' :: (padChars 2 t.hour ++ ':' :: (padChars 2 t.minute ++ ':' :: padChars 2 t.second))))⟩

/-- The inner `get_filter_params` closure of `Manager.filter`
(manager.py:265-271).  `none` models the `AttributeError` from calling
`.isoformat()` on a non-datetime. -/
def get_filter_params (key : String) (v : FVal) : Option String :=
  if BOOLEAN_FIELDS.contains key then
    some (if pyTruthyF v then "true" else "false")
  else if DATETIME_FIELDS.contains key then
    match v with
    | .dt t => some (isoformat t)
    | _ => none
  else some ("\"" ++ pyStrF v ++ "\"")

/-- Python `key.split("__")` at character level (greedy leftmost,
non-overlapping). -/
def splitOnUnderscores : List Char → List (List Char)
  | [] => [[]]
  | '_' :: '_' :: rest => [] :: splitOnUnderscores rest
  | c :: rest =>
      match splitOnUnderscores rest with
      | [] => [[c]]
      | chunk :: more => (c :: chunk) :: more

/-- Python `key.replace('_', '.')`. -/
def underscoresToDots (key : String) : String :=
  ⟨key.data.map (fun c => if c = '_' then '.' else c)⟩

/-- The inner `generate_param` closure of `Manager.filter`
(manager.py:273-287): an operator-suffix key `field__op` with `op` in the
(lower-case) recognized list compiles to `field.op(value)`; anything else
compiles to `field==value` with every `'_'` turned into `'.'`. -/
def generate_param (key : String) (v : FVal) : Option String :=
  let parts := (splitOnUnderscores key.data).map (fun l => (⟨l⟩ : String))
  let field := underscoresToDots key
  if parts.length = 2 && ["contains", "startswith", "endswith"].contains (parts.getD 1 "") then
    (get_filter_params key v).map (fun val =>
      parts.getD 0 "" ++ "." ++ parts.getD 1 "" ++ "(" ++ val ++ ")")
  else
    (get_filter_params key v).map (fun val => field ++ "==" ++ val)

/-- **C3** (code bug): the code's own comment (manager.py:278-279) and the
claim both promise `Name__Contains=John` → `Name.Contains("John")`, but the
recognized-suffix comparison is against the lower-case literals, so
`"Contains"` is not recognized and the key falls through to the equality
branch, where both underscores become dots: `Name..Contains=="John"`.
The lower-case spelling and the plain-equality example behave as claimed. -/
theorem generate_param_behaviour :
    generate_param "Name__Contains" (.s "John") = some "Name..Contains==\"John\"" ∧
    generate_param "Name__contains" (.s "John") = some "Name.contains(\"John\")" ∧
    generate_param "Status" (.s "PAID") = some "Status==\"PAID\"" := by
  refine ⟨?_, ?_, ?_⟩ <;> decide

/-! ## The error taxonomy (`exceptions.py` names, carried data only) -/

inductive XeroError where
  | badRequest
  | unauthorized
  | forbidden
  | notFound
  | internalError
  | notImplemented
  | rateLimitExceeded (payload : List (String × List String))
  | notAvailable
  | notVerified
  | unknown
  deriving DecidableEq, Repr

/-- An exception escaping an embedded method: one of the library's typed
errors, or a plain Python error (`TypeError`/`KeyError`/`ValueError`) from
indexing a missing field. -/
inductive PyErr where
  | xero (e : XeroError)
  | typeError
  deriving DecidableEq, Repr

/-! ## Structured values and XML trees (`XmlCodec`) -/

/-- A decoded/encodable structured value: scalars (string, bool, datetime,
date), an ordered mapping, or a sequence.  `junk` stands for any Python
value outside this domain (e.g. a raw tuple stored by an unreachable
branch of `convert_to_dict`). -/
inductive SVal where
  | str (s : String)
  | bool (b : Bool)
  | dt (t : PyDateTime)
  | date (d : PyDate)
  | obj (fields : List (String × SVal))
  | arr (items : List SVal)
  | junk
  deriving Repr

inductive XmlNode where
  | elem (tag : String) (children : List XmlNode)
  | text (s : String)
  deriving Repr

/-- An entry of the tuple tree built by `walk_dom`: tag names and stripped
text are strings, element contents are nested tuples. -/
inductive TupElem where
  | s (v : String)
  | t (l : List TupElem)
  deriving Repr

/-- Python `str()` of a scalar stored in a record (strings unchanged,
`True`/`False`, `datetime`/`date` ISO-ish forms).  The `obj`/`arr`/`junk`
cases are unreachable from `dict_to_xml`'s scalar branch. -/
def pyStrScalar : SVal → String
  | .str s => s
  | .bool true => "True"
  | .bool false => "False"
  | .dt t => pyStrDateTime t
  | .date d => pyStrDate d
  | _ => ""

mutual

def dict_to_xml_fields : List (String × SVal) → Option (List XmlNode)
  | [] => some []
  | (key, sub_data) :: rest => do
      let node ← dict_to_xml_field key sub_data
      let nodes ← dict_to_xml_fields rest
      pure (node :: nodes)

/-- One iteration of the `for key in data.keys()` loop of
`Manager.dict_to_xml` (manager.py:119-153): a dict value recurses under a
node named by the key; a list under a plural key wraps every item in the
(exception-fixed) singular of the key; a list under a non-plural key
splices the items' fields directly under the key's node; anything else is
a text leaf.  `none` models the `AttributeError` from iterating
`.keys()` of a non-dict list item. -/
def dict_to_xml_field (key : String) : SVal → Option XmlNode
  | .obj f => (dict_to_xml_fields f).map (fun ns => XmlNode.elem key ns)
  | .arr items =>
      if lastIsS key then
        (wrapItems (dropLastChar key) items).map (fun ns => XmlNode.elem key ns)
      else
        (flatItems items).map (fun ns => XmlNode.elem key ns)
  | v => some (.elem key [.text (pyStrScalar v)])

/-- The plural branch: `plural_name` is re-assigned through
`PLURAL_EXCEPTIONS.get` before each item, exactly as in the source loop. -/
def wrapItems (plural_name : String) : List SVal → Option (List XmlNode)
  | [] => some []
  | .obj f :: rest => do
      let pn := pluralFix plural_name
      let ns ← dict_to_xml_fields f
      let more ← wrapItems pn rest
      pure (XmlNode.elem pn ns :: more)
  | _ :: _ => none

/-- The non-plural branch: each item's fields become further children of
the key's own node. -/
def flatItems : List SVal → Option (List XmlNode)
  | [] => some []
  | .obj f :: rest => do
      let ns ← dict_to_xml_fields f
      let more ← flatItems rest
      pure (ns ++ more)
  | _ :: _ => none

end

/-- `Manager.dict_to_xml(root_elm, data)`: append the encoded fields to the
root element's children and return it. -/
def Manager.dict_to_xml (root : XmlNode) (data : List (String × SVal)) : Option XmlNode :=
  match root with
  | .elem tag cs => (dict_to_xml_fields data).map (fun ns => XmlNode.elem tag (cs ++ ns))
  | .text _ => none

/-- Encoding a record under a fresh root tag, as `_prepare_data_for_save`
does with `dict_to_xml(Element(tag), data)`. -/
def encodeRecord (rootTag : String) (data : List (String × SVal)) : Option XmlNode :=
  Manager.dict_to_xml (.elem rootTag []) data

/-- `Manager.walk_dom` over a node list (`dom.childNodes`): an element node
contributes its tag and the walk of its children; a text node contributes
its stripped text when non-empty. -/
def walk_dom_list : List XmlNode → List TupElem
  | [] => []
  | .elem tag children :: rest =>
      .s tag :: .t (walk_dom_list children) :: walk_dom_list rest
  | .text d :: rest =>
      (if pyStrip d == "" then [] else [.s (pyStrip d)]) ++ walk_dom_list rest

/-- `walk_dom(node)` proper: the walk of a single node (the pipeline calls
it on the DOM document, whose only child is the root element). -/
def walk_dom (n : XmlNode) : List TupElem :=
  walk_dom_list [n]

/-- The mutable `out` of `convert_to_dict`: starts as `{}`, may become a
dict or a list. -/
inductive Out where
  | dictOut (kvs : List (String × SVal))
  | listOut (vs : List SVal)
  deriving Repr

/-- Python dict assignment `out[key] = v` on an ordered dict: overwrite in
place if present, else append. -/
def setKey (kvs : List (String × SVal)) (k : String) (v : SVal) : List (String × SVal) :=
  if kvs.any (fun p => p.1 == k) then
    kvs.map (fun p => if p.1 == k then (k, v) else p)
  else kvs ++ [(k, v)]

def Out.toSVal : Out → SVal
  | .dictOut kvs => .obj kvs
  | .listOut vs => .arr vs

def strOf : TupElem → Option String
  | .s v => some v
  | .t _ => none

def tupOf : TupElem → Option (List TupElem)
  | .t l => some l
  | .s _ => none

/-- The scalar-special-casing of `convert_to_dict` (manager.py:92-98):
boolean fields compare the lowered text to `'true'`, datetime fields go
through `dateutil` parsing, date fields additionally take the date part.
The tables are disjoint, so the `.junk` overlap branches (where Python
would crash re-parsing an already-coerced value) are never taken. -/
def coerceScalar (key v : String) : SVal :=
  if BOOLEAN_FIELDS.contains key then
    if DATETIME_FIELDS.contains key || DATE_FIELDS.contains key then .junk
    else .bool (pyLower v == "true")
  else if DATETIME_FIELDS.contains key then
    if DATE_FIELDS.contains key then .junk
    else
      match dateutilParse v with
      | some t => .dt t
      | none => .junk
  else if DATE_FIELDS.contains key then
    match dateutilParse v with
    | some t => .date t.date
    | none => .junk
  else .str v

/-- One `for key, data in zip(keys, lists)` iteration of `convert_to_dict`
(manager.py:74-109), with the recursive conversion of `data` supplied as
`cval`.  Multi-line or singular-named keys accumulate a list (replacing an
empty dict, appending to a list, or assigning into an already-populated
dict); single-entry data is a coerced scalar; longer data is the recursive
conversion; empty data is dropped. -/
def convertStep (singular key : String) (data : List TupElem) (cval : SVal) (out : Out) : Out :=
  if MULTI_LINES.contains key || key == singular then
    match out with
    | .dictOut [] => .listOut [cval]
    | .dictOut kvs => .dictOut (setKey kvs key cval)
    | .listOut vs => .listOut (vs ++ [cval])
  else if data.length == 1 then
    let val := match data with
      | [.s v] => coerceScalar key v
      | _ => .junk
    match out with
    | .dictOut kvs => .dictOut (setKey kvs key val)
    | .listOut vs => .listOut (vs ++ [val])
  else if data.length > 1 then
    match out with
    | .dictOut kvs => .dictOut (setKey kvs key cval)
    | .listOut vs => .listOut (vs ++ [cval])
  else out

theorem sizeOf_lt_of_pair_mem {k : String} {data dl : List TupElem}
    (h : (k, data) ∈ (dl.filterMap strOf).zip (dl.filterMap tupOf)) :
    sizeOf data < sizeOf dl := by
  have hmem : data ∈ dl.filterMap tupOf := (List.of_mem_zip h).2
  obtain ⟨e, he, heq⟩ := List.mem_filterMap.mp hmem
  cases e with
  | s v => simp [tupOf] at heq
  | t l =>
      simp only [tupOf, Option.some.injEq] at heq
      subst heq
      have := List.sizeOf_lt_of_mem he
      simp only [TupElem.t.sizeOf_spec] at this
      omega

/-- `Manager.convert_to_dict` (manager.py:69-117).  More than two entries:
zip the string entries with the tuple entries and fold `convertStep` over
the pairs starting from an empty dict.  Exactly two entries `(key, data)`:
a one-key dict around the recursive conversion.  One entry: that entry
itself (a string; a bare tuple is `junk`).  Empty: `junk` (Python raises
`IndexError`). -/
def convert_to_dict (singular : String) (dl : List TupElem) : SVal :=
  if dl.length > 2 then
    let keys := dl.filterMap strOf
    let lists := dl.filterMap tupOf
    (((keys.zip lists).attach).foldl
      (fun (out : Out) (p : {q // q ∈ keys.zip lists}) =>
        convertStep singular p.1.1 p.1.2 (convert_to_dict singular p.1.2) out)
      (.dictOut [])).toSVal
  else if dl.length == 2 then
    match dl with
    | [.s k, .t d] => .obj [(k, convert_to_dict singular d)]
    | _ => .junk
  else
    match dl with
    | [.s v] => .str v
    | _ => .junk
termination_by sizeOf dl
decreasing_by
  all_goals first
    | exact sizeOf_lt_of_pair_mem p.2
    | simp_arith

/-- Decoding of the contents of a root element: the pipeline's
`convert_to_dict(walk_dom(dom))` equals `{rootTag: decode(tree)}` (the
`walk_dom` of a document wraps the root's tag around this value). -/
def Manager.decode (m : Manager) : XmlNode → SVal
  | .elem _ children => convert_to_dict m.singular (walk_dom_list children)
  | .text _ => .junk

/-- The full pipeline view: `convert_to_dict(walk_dom(node))`. -/
def Manager.convertDom (m : Manager) (n : XmlNode) : SVal :=
  convert_to_dict m.singular (walk_dom n)

def lookupKey (kvs : List (String × SVal)) (k : String) : Option SVal :=
  (kvs.find? (fun p => p.1 == k)).map (fun p => p.2)

/-- `Manager._get_results` (manager.py:166-174): index the decoded mapping
at `'Response'` (a `KeyError` if absent), `.get` the resource name with an
empty-dict default, return sequences as-is, index mappings at the singular
name when present — and otherwise fall off the end, returning Python
`None` (`.ok none`). -/
def Manager.get_results (m : Manager) (data : SVal) : Except PyErr (Option SVal) :=
  match data with
  | .obj kvs =>
      match lookupKey kvs "Response" with
      | none => .error .typeError
      | some response =>
          match response with
          | .obj rkvs =>
              let result := (lookupKey rkvs m.name).getD (.obj [])
              match result with
              | .arr l => .ok (some (.arr l))
              | .obj okvs =>
                  match lookupKey okvs m.singular with
                  | some v => .ok (some v)
                  | none => .ok none
              | _ => .ok none
          | _ => .error .typeError
  | _ => .error .typeError

/-- A concrete core-API manager used for counterexamples and witnesses. -/
def mInvoices : Manager := Manager.create "Invoices" XERO_API_URL "core"

/-- A concrete manager whose singular ("Contact") keeps the example
records below within the classification tables. -/
def mContacts : Manager := Manager.create "Contacts" XERO_API_URL "core"

/-- **C2** (corrected): result extraction returns a sequence as-is and the
singular entry of a mapping that has one — but for a mapping *without* the
singular key (and for any scalar) the method falls off the end and returns
Python `None`, not the mapping itself. -/
theorem get_results_characterization (m : Manager) (rkvs : List (String × SVal)) :
    m.get_results (.obj [("Response", .obj rkvs)]) =
      .ok (match (lookupKey rkvs m.name).getD (.obj []) with
           | .arr l => some (.arr l)
           | .obj okvs => lookupKey okvs m.singular
           | _ => none) := by
  have hResp : lookupKey [("Response", SVal.obj rkvs)] "Response" = some (.obj rkvs) := by
    simp [lookupKey]
  simp only [Manager.get_results, hResp]
  cases h : (lookupKey rkvs m.name).getD (SVal.obj []) with
  | str s => rfl
  | bool b => rfl
  | dt t => rfl
  | date d => rfl
  | obj okvs =>
      cases hs : lookupKey okvs m.singular with
      | none => simp [hs]
      | some v => simp [hs]
  | arr l => rfl
  | junk => rfl

/-- **C2** counterexample: a `Response` whose resource entry is a mapping
not containing the singular key — the claim says the mapping itself is
returned, but the code returns `None`. -/
theorem get_results_none_counterexample :
    mInvoices.get_results
        (.obj [("Response", .obj [("Invoices", .obj [("Foo", .str "x")])])]) = .ok none ∧
    (Except.ok none : Except PyErr (Option SVal)) ≠
      .ok (some (.obj [("Foo", .str "x")])) := by
  constructor
  · rfl
  · intro h
    simp at h

/-! ## Request descriptors, `filter` and `all` -/

/-- The `(uri, method, body, headers)` tuple every decorated verb returns. -/
structure ReqDescriptor where
  uri : String
  method : String
  body : Option String
  headers : Option (List (String × String))
  deriving DecidableEq, Repr

def WEEKDAY_ABBREVS : List String := ["Sun", "Mon", "Tue", "Wed", "Thu", "Fri", "Sat"]

def MONTH_ABBREVS : List String :=
  ["Jan", "Feb", "Mar", "Apr", "May", "Jun", "Jul", "Aug", "Sep", "Oct", "Nov", "Dec"]

/-- Day of week (0 = Sunday) by Sakamoto's congruence, standing in for the
C library behind Python's `strftime('%a')`. -/
def sakamotoWeekday (y m d : Nat) : Nat :=
  let t := [0, 3, 2, 5, 0, 3, 5, 1, 4, 6, 2, 4]
  let y' := if m < 3 then y - 1 else y
  (y' + y' / 4 + y' / 400 + t.getD (m - 1) 0 + d - y' / 100) % 7

/-- Modelled from the spec: the external
`strftime('%a, %d %b %Y %H:%M:%S GMT')` rendering ("formatted as an
RFC-1123 date"). -/
def strftimeRFC1123 (t : PyDateTime) : String :=
  WEEKDAY_ABBREVS.getD (sakamotoWeekday t.year t.month t.day) "Sun" ++ ", " ++
    (⟨padChars 2 t.day⟩ : String) ++ " " ++ MONTH_ABBREVS.getD (t.month - 1) "Jan" ++ " " ++
    (⟨padChars 4 t.year⟩ : String) ++ " " ++ (⟨padChars 2 t.hour⟩ : String) ++ ":" ++
    (⟨padChars 2 t.minute⟩ : String) ++ ":" ++ (⟨padChars 2 t.second⟩ : String) ++ " GMT"

/-- `Manager.prepare_filtering_date` (manager.py:241-246): RFC-1123 text
for datetime values, a double-quoted literal for anything else, under the
`If-Modified-Since` header name. -/
def Manager.prepare_filtering_date (val : FVal) : List (String × String) :=
  match val with
  | .dt t => [("If-Modified-Since", strftimeRFC1123 t)]
  | v => [("If-Modified-Since", "\"" ++ pyStrF v ++ "\"")]

def dictLookup (kwargs : List (String × FVal)) (k : String) : Option FVal :=
  (kwargs.find? (fun p => p.1 == k)).map (fun p => p.2)

def dictDel (kwargs : List (String × FVal)) (k : String) : List (String × FVal) :=
  kwargs.filter (fun p => !(p.1 == k))

def joinSep (sep : String) : List String → String
  | [] => ""
  | [x] => x
  | x :: rest => x ++ sep ++ joinSep sep rest

def genParams : List (String × FVal) → Option (List String)
  | [] => some []
  | (k, v) :: rest => do
      let p ← generate_param k v
      let ps ← genParams rest
      pure (p :: ps)

/-- The tail of `Manager.filter` after the `since` extraction
(manager.py:259-304): pop `offset` and `page`, compile the remaining
criteria into an AND-joined, URL-quoted `where=` parameter, assemble the
query string, and return a GET descriptor with the given headers. -/
def Manager.filterQuery (m : Manager) (headers : Option (List (String × String)))
    (kwargs1 : List (String × FVal)) : Option ReqDescriptor :=
  let uri0 := m.api_url ++ "/" ++ m.name
  let (offset, kwargs2) :=
    match dictLookup kwargs1 "offset" with
    | some v => (some v, dictDel kwargs1 "offset")
    | none => (none, kwargs1)
  let (page, kwargs3) :=
    match dictLookup kwargs2 "page" with
    | some v => (some v, dictDel kwargs2 "page")
    | none => (none, kwargs2)
  match genParams kwargs3 with
  | none => none
  | some params =>
      let qsi : List String :=
        (if params.isEmpty then [] else ["where=" ++ urllibQuote (joinSep "&&" params)]) ++
        (match offset with
         | some o => if pyTruthyF o then ["offset=" ++ pyStrF o] else []
         | none => []) ++
        (match page with
         | some p => if pyTruthyF p then ["page=" ++ pyStrF p] else []
         | none => [])
      some ⟨if qsi.length > 0 then uri0 ++ "?" ++ joinSep "&" qsi else uri0,
            "get", none, headers⟩

/-- `Manager.filter(**kwargs)` (manager.py:248-304): with no criteria the
plain collection descriptor; otherwise pull out `since` into an
`If-Modified-Since` header and run the query pipeline on the rest. -/
def Manager.filter (m : Manager) (kwargs : List (String × FVal)) : Option ReqDescriptor :=
  if kwargs.isEmpty then some ⟨m.api_url ++ "/" ++ m.name, "get", none, none⟩
  else
    match dictLookup kwargs "since" with
    | some val => m.filterQuery (some (Manager.prepare_filtering_date val)) (dictDel kwargs "since")
    | none => m.filterQuery none kwargs

/-- `Manager.all()` (manager.py:336-338). -/
def Manager.all (m : Manager) : ReqDescriptor :=
  ⟨m.api_url ++ "/" ++ m.name, "get", none, none⟩

/-- **C9** (confirmed): `filter()` with no criteria is exactly `all()`:
same collection URI with no query string, GET, no body, no headers. -/
theorem filter_empty_eq_all (m : Manager) : m.filter [] = some m.all := rfl

theorem dictLookup_cons_self (k : String) (v : FVal) (rest : List (String × FVal)) :
    dictLookup ((k, v) :: rest) k = some v := by
  simp [dictLookup]

theorem dictLookup_eq_none {rest : List (String × FVal)} {k : String}
    (h : ∀ p ∈ rest, p.1 ≠ k) : dictLookup rest k = none := by
  have : rest.find? (fun p => p.1 == k) = none :=
    List.find?_eq_none.mpr (fun p hp => by simpa using h p hp)
  simp [dictLookup, this]

theorem dictDel_of_not_mem {rest : List (String × FVal)} {k : String}
    (h : ∀ p ∈ rest, p.1 ≠ k) : dictDel rest k = rest :=
  List.filter_eq_self.mpr (fun p hp => by simpa using h p hp)


theorem rfc1123_jan1_2014 :
    strftimeRFC1123 ⟨2014, 1, 1, 0, 0, 0⟩ = "Wed, 01 Jan 2014 00:00:00 GMT" := by
  simp [strftimeRFC1123, sakamotoWeekday, padChars, natChars]
  decide

theorem filterQuery_headers (m : Manager) (h : Option (List (String × String)))
    (kw : List (String × FVal)) :
    m.filterQuery h kw =
      (m.filterQuery none kw).map (fun d => ⟨d.uri, "get", none, h⟩) := by
  unfold Manager.filterQuery
  cases ho : dictLookup kw "offset" with
  | none =>
      cases hp : dictLookup kw "page" with
      | none => cases gp : genParams kw <;> simp [hp, gp]
      | some p => cases gp : genParams (dictDel kw "page") <;> simp [hp, gp]
  | some o =>
      cases hp : dictLookup (dictDel kw "offset") "page" with
      | none => cases gp : genParams (dictDel kw "offset") <;> simp [hp, gp]
      | some p => cases gp : genParams (dictDel (dictDel kw "offset") "page") <;> simp [hp, gp]

/-- **C8** (confirmed): `since` is removed from the criteria before
predicate generation and becomes an `If-Modified-Since` header — RFC-1123
for datetimes, a quoted literal otherwise; `filter(since=datetime(2014,1,1))`
yields `If-Modified-Since: Wed, 01 Jan 2014 00:00:00 GMT` on the bare
collection URI (no `where` clause, no query string at all). -/
theorem filter_since_spec :
    (∀ (m : Manager) (v : FVal) (rest : List (String × FVal)),
      (∀ p ∈ rest, p.1 ≠ "since") →
      m.filter (("since", v) :: rest) =
        (m.filter rest).map
          (fun d => ⟨d.uri, "get", none, some (Manager.prepare_filtering_date v)⟩)) ∧
    Manager.prepare_filtering_date (.dt ⟨2014, 1, 1, 0, 0, 0⟩) =
      [("If-Modified-Since", "Wed, 01 Jan 2014 00:00:00 GMT")] ∧
    (∀ v : FVal, (∀ t, v ≠ .dt t) →
      Manager.prepare_filtering_date v =
        [("If-Modified-Since", "\"" ++ pyStrF v ++ "\"")]) ∧
    (∀ m : Manager, m.filter [("since", .dt ⟨2014, 1, 1, 0, 0, 0⟩)] =
      some ⟨m.api_url ++ "/" ++ m.name, "get", none,
            some [("If-Modified-Since", "Wed, 01 Jan 2014 00:00:00 GMT")]⟩) := by
  refine ⟨?_, ?_, ?_, ?_⟩
  · intro m v rest h
    have h2 : dictDel (("since", v) :: rest) "since" = rest := by
      unfold dictDel
      rw [List.filter_cons]
      simp only [beq_self_eq_true, Bool.not_true, Bool.false_eq_true, if_false]
      exact dictDel_of_not_mem h
    cases rest with
    | nil => rfl
    | cons hd tl =>
        have h3 : dictLookup (hd :: tl) "since" = none := dictLookup_eq_none h
        have hL : m.filter (("since", v) :: hd :: tl) =
            m.filterQuery (some (Manager.prepare_filtering_date v)) (hd :: tl) := by
          simp only [Manager.filter, List.isEmpty_cons, Bool.false_eq_true, if_false,
            dictLookup_cons_self, h2]
        have hR : m.filter (hd :: tl) = m.filterQuery none (hd :: tl) := by
          simp only [Manager.filter, List.isEmpty_cons, Bool.false_eq_true, if_false, h3]
        rw [hL, hR]
        exact filterQuery_headers m _ _
  · show _ = _
    rw [show Manager.prepare_filtering_date (.dt ⟨2014, 1, 1, 0, 0, 0⟩) =
          [("If-Modified-Since", strftimeRFC1123 ⟨2014, 1, 1, 0, 0, 0⟩)] from rfl,
        rfc1123_jan1_2014]
  · intro v hv
    cases v with
    | dt t => exact absurd rfl (hv t)
    | s w => rfl
    | b w => rfl
    | n w => rfl
  · intro m
    have h0 : m.filter [("since", .dt ⟨2014, 1, 1, 0, 0, 0⟩)] =
        some ⟨m.api_url ++ "/" ++ m.name, "get", none,
              some (Manager.prepare_filtering_date (.dt ⟨2014, 1, 1, 0, 0, 0⟩))⟩ := rfl
    rw [h0, show Manager.prepare_filtering_date (.dt ⟨2014, 1, 1, 0, 0, 0⟩) =
          [("If-Modified-Since", strftimeRFC1123 ⟨2014, 1, 1, 0, 0, 0⟩)] from rfl,
        rfc1123_jan1_2014]

theorem filter_since_spec_witness :
    (mInvoices.filter [("since", FVal.s "x"), ("Status", FVal.s "PAID")] =
      (mInvoices.filter [("Status", FVal.s "PAID")]).map
        (fun d => ⟨d.uri, "get", none,
                   some (Manager.prepare_filtering_date (FVal.s "x"))⟩)) ∧
    Manager.prepare_filtering_date (FVal.s "PAID") =
      [("If-Modified-Since", "\"" ++ pyStrF (FVal.s "PAID") ++ "\"")] :=
  ⟨filter_since_spec.1 mInvoices (FVal.s "x") [("Status", FVal.s "PAID")]
      (by intro p hp; simp at hp; rw [hp]; decide),
   filter_since_spec.2.2.1 (FVal.s "PAID") (fun t h => FVal.noConfusion h)⟩

/-! ## HTTP responses and the shared status classification -/

structure HttpResponse where
  status : Nat
  text : String
  deriving DecidableEq, Repr

/-- The status-classification arm of the shared `_get_data` wrapper
(manager.py:182-222): the error raised for a non-200 status (`none` for
200, where the wrapper goes on to parse the body). -/
def Manager.get_data_classify (status : Nat) (text : String) : Option XeroError :=
  if status == 200 then none
  else if status == 400 then some .badRequest
  else if status == 401 then some .unauthorized
  else if status == 403 then some .forbidden
  else if status == 404 then some .notFound
  else if status == 500 then some .internalError
  else if status == 501 then some .notImplemented
  else if status == 503 then
    let payload := parse_qs text
    if !payload.isEmpty then some (.rateLimitExceeded payload)
    else some .notAvailable
  else some .unknown

/-! ## Credential objects (`auth.py`) -/

/-- The material an `OAuth1` signing object is built from (the
SigningContext of the spec). -/
structure OAuthSig where
  consumer_key : String
  client_secret : String
  resource_owner_key : String
  resource_owner_secret : String
  rsa : Bool
  client_cert : Option String
  api_url : String
  deriving DecidableEq, Repr

/-- `PublicCredentials` state. -/
structure PubCreds where
  consumer_key : String
  consumer_secret : String
  callback_uri : Option String
  verified : Bool
  oauth_token : Option String
  oauth_token_secret : Option String
  scope : Option String
  _oauth : Option OAuthSig
  deriving DecidableEq, Repr

/-- Python truthiness of an optional string argument (`if oauth_token and
oauth_token_secret`). -/
def pyTruthyOpt : Option String → Bool
  | none => false
  | some s => s ≠ ""

/-- `PublicCredentials._init_oauth` (auth.py:161-173): store the token
pair, set `verified`, build the HMAC `OAuth1` object against the core API
URL. -/
def PubCreds._init_oauth (c : PubCreds) (tok sec : String) : PubCreds :=
  { c with
    oauth_token := some tok
    oauth_token_secret := some sec
    verified := true
    _oauth := some ⟨c.consumer_key, c.consumer_secret, tok, sec, false, none, XERO_API_URL⟩ }

/-- The `oauth` property (auth.py:252-257): a not-verified error exactly
when no `OAuth1` object has been initialised. -/
def PubCreds.oauth (c : PubCreds) : Except XeroError OAuthSig :=
  match c._oauth with
  | none => .error .notVerified
  | some o => .ok o

/-- `PublicCredentials.__init__` (auth.py:85-159).  With a truthy token
pair: either rehydrate verified credentials via `_init_oauth` or store the
unverified pair.  Otherwise issue the request-token call, whose response
is a parameter here, and classify it exactly as the source does. -/
def PublicCredentials.init (consumer_key consumer_secret : String)
    (callback_uri : Option String) (verified : Bool)
    (oauth_token oauth_token_secret : Option String) (scope : Option String)
    (request_token_response : HttpResponse) : Except PyErr PubCreds :=
  let base : PubCreds :=
    { consumer_key := consumer_key
      consumer_secret := consumer_secret
      callback_uri := callback_uri
      verified := verified
      oauth_token := none
      oauth_token_secret := none
      scope := scope
      _oauth := none }
  if pyTruthyOpt oauth_token && pyTruthyOpt oauth_token_secret then
    if verified then
      .ok (base._init_oauth (oauth_token.getD "") (oauth_token_secret.getD ""))
    else
      .ok { base with oauth_token := oauth_token, oauth_token_secret := oauth_token_secret }
  else
    let resp := request_token_response
    if resp.status == 200 then
      let credentials := parse_qs resp.text
      match qsGet credentials "oauth_token", qsGet credentials "oauth_token_secret" with
      | some tok, some sec =>
          .ok { base with oauth_token := some tok, oauth_token_secret := some sec }
      | _, _ => .error .typeError
    else if resp.status == 400 then .error (.xero .badRequest)
    else if resp.status == 401 then .error (.xero .unauthorized)
    else if resp.status == 403 then .error (.xero .forbidden)
    else if resp.status == 404 then .error (.xero .notFound)
    else if resp.status == 500 then .error (.xero .internalError)
    else if resp.status == 501 then .error (.xero .notImplemented)
    else if resp.status == 503 then
      let payload := parse_qs resp.text
      if !payload.isEmpty then .error (.xero (.rateLimitExceeded payload))
      else .error (.xero .notAvailable)
    else .error (.xero .unknown)

/-- `PublicCredentials.verify` (auth.py:189-240), with the access-token
response as a parameter: the pair is (state after the call, raised
exception if any).  Only the 200 branch mutates the object. -/
def PubCreds.verify (c : PubCreds) (resp : HttpResponse) : PubCreds × Option PyErr :=
  if resp.status == 200 then
    let credentials := parse_qs resp.text
    match qsGet credentials "oauth_token", qsGet credentials "oauth_token_secret" with
    | some tok, some sec => (c._init_oauth tok sec, none)
    | _, _ => (c, some .typeError)
  else if resp.status == 400 then (c, some (.xero .badRequest))
  else if resp.status == 401 then (c, some (.xero .unauthorized))
  else if resp.status == 403 then (c, some (.xero .forbidden))
  else if resp.status == 404 then (c, some (.xero .notFound))
  else if resp.status == 500 then (c, some (.xero .internalError))
  else if resp.status == 501 then (c, some (.xero .notImplemented))
  else if resp.status == 503 then
    let payload := parse_qs resp.text
    if !payload.isEmpty then (c, some (.xero (.rateLimitExceeded payload)))
    else (c, some (.xero .notAvailable))
  else (c, some (.xero .unknown))

/-- `PartnerCredentials` state (auth.py:296-332); `oauth_expires_in` and
the British-spelled `oauth_authorisation_expires_in` are the raw duration
attributes the 200 branch stores before converting. -/
structure PartnerCreds where
  consumer_key : String
  consumer_secret : String
  rsa_key : String
  client_cert : String
  callback_uri : Option String
  verified : Bool
  oauth_token : Option String
  oauth_token_secret : Option String
  oauth_session_handle : Option String
  oauth_expires_at : Option Int
  oauth_authorization_expires_at : Option Int
  oauth_expires_in : Option String
  oauth_authorisation_expires_in : Option String
  scope : Option String
  _oauth : Option OAuthSig
  deriving DecidableEq, Repr

/-- `PartnerCredentials._init_oauth` (auth.py:381-396): RSA signing, the
client certificate, the partner API URL. -/
def PartnerCreds._init_oauth (c : PartnerCreds) (tok sec : String) : PartnerCreds :=
  { c with
    oauth_token := some tok
    oauth_token_secret := some sec
    verified := true
    _oauth := some ⟨c.consumer_key, c.consumer_secret, tok, sec, true,
                    some c.client_cert, PARTNER_XERO_API_URL⟩ }

/-- The partner `oauth` property (auth.py:510-515). -/
def PartnerCreds.oauth (c : PartnerCreds) : Except XeroError OAuthSig :=
  match c._oauth with
  | none => .error .notVerified
  | some o => .ok o

/-- Python `int()` on a decimal string (optional minus sign), as used on
the parsed expiry durations; `none` is the `ValueError`. -/
def pyInt (s : String) : Option Int :=
  match s.data with
  | [] => none
  | '-' :: ds =>
      if !ds.isEmpty && ds.all Char.isDigit then some (-(charsToNat ds : Int)) else none
  | ds => if ds.all Char.isDigit then some ((charsToNat ds : Int)) else none

/-- `PartnerCredentials._process_access_token_response` (auth.py:449-498).
Mutations are modelled step by step in source order, so a missing field
crashes with exactly the partial state Python would leave behind.  Both
`datetime.datetime.now()` calls are modelled as the single instant `now`
(seconds); `timedelta(seconds=int(s))` is integer addition. -/
def PartnerCreds.process_access_token (c : PartnerCreds) (resp : HttpResponse)
    (now : Int) : PartnerCreds × Option PyErr :=
  if resp.status == 200 then
    let credentials := parse_qs resp.text
    match qsGet credentials "oauth_token", qsGet credentials "oauth_token_secret" with
    | some tok, some sec =>
        let c1 := c._init_oauth tok sec
        match qsGet credentials "oauth_expires_in" with
        | none => (c1, some .typeError)
        | some expin =>
            let c2 := { c1 with oauth_expires_in := some expin }
            match qsGet credentials "oauth_session_handle" with
            | none => (c2, some .typeError)
            | some sh =>
                let c3 := { c2 with oauth_session_handle := some sh }
                match qsGet credentials "oauth_authorization_expires_in" with
                | none => (c3, some .typeError)
                | some aexpin =>
                    let c4 := { c3 with oauth_authorisation_expires_in := some aexpin }
                    match pyInt expin with
                    | none => (c4, some .typeError)
                    | some n =>
                        let c5 := { c4 with oauth_expires_at := some (now + n) }
                        match pyInt aexpin with
                        | none => (c5, some .typeError)
                        | some n2 =>
                            ({ c5 with oauth_authorization_expires_at := some (now + n2) },
                             none)
    | _, _ => (c, some .typeError)
  else if resp.status == 400 then (c, some (.xero .badRequest))
  else if resp.status == 401 then (c, some (.xero .unauthorized))
  else if resp.status == 403 then (c, some (.xero .forbidden))
  else if resp.status == 404 then (c, some (.xero .notFound))
  else if resp.status == 500 then (c, some (.xero .internalError))
  else if resp.status == 501 then (c, some (.xero .notImplemented))
  else if resp.status == 503 then
    let payload := parse_qs resp.text
    if !payload.isEmpty then (c, some (.xero (.rateLimitExceeded payload)))
    else (c, some (.xero .notAvailable))
  else (c, some (.xero .unknown))

/-- `PartnerCredentials.verify` (auth.py:414-430): issue the signed
access-token exchange (the response is a parameter) and process it. -/
def PartnerCreds.verify (c : PartnerCreds) (resp : HttpResponse) (now : Int) :
    PartnerCreds × Option PyErr :=
  c.process_access_token resp now

/-- `PartnerCredentials.refresh` (auth.py:432-447): the same exchange
against the stored session handle, same response processing. -/
def PartnerCreds.refresh (c : PartnerCreds) (resp : HttpResponse) (now : Int) :
    PartnerCreds × Option PyErr :=
  c.process_access_token resp now

/-- **C5** (confirmed): on a 503, both the manager's shared execute path
and the credential verify path parse the body as url-encoded pairs and
raise rate-limit exactly when a pair is present, service-unavailable
otherwise; the spec's two example bodies behave accordingly. -/
theorem status503_spec :
    (∀ text : String, Manager.get_data_classify 503 text =
      some (if (parse_qs text).isEmpty then .notAvailable
            else .rateLimitExceeded (parse_qs text))) ∧
    (∀ (c : PubCreds) (text : String),
      c.verify ⟨503, text⟩ =
        (c, some (.xero (if (parse_qs text).isEmpty then .notAvailable
                         else .rateLimitExceeded (parse_qs text))))) ∧
    parse_qs "oauth_problem=rate_limit_exceeded" =
      [("oauth_problem", ["rate_limit_exceeded"])] ∧
    parse_qs "" = [] := by
  refine ⟨?_, ?_, ?_, ?_⟩
  · intro text
    by_cases hp : (parse_qs text).isEmpty <;>
      simp [Manager.get_data_classify, hp]
  · intro c text
    by_cases hp : (parse_qs text).isEmpty <;>
      simp [PubCreds.verify, hp]
  · decide
  · decide

theorem pub_verify_non200 (c : PubCreds) (resp : HttpResponse)
    (h : (resp.status == 200) = false) :
    (c.verify resp).1 = c ∧ (c.verify resp).2.isSome := by
  simp only [PubCreds.verify, h, Bool.false_eq_true, if_false]
  split_ifs <;> simp

theorem partner_process_non200 (c : PartnerCreds) (resp : HttpResponse) (now : Int)
    (h : (resp.status == 200) = false) :
    (c.process_access_token resp now).1 = c ∧
      (c.process_access_token resp now).2.isSome := by
  simp only [PartnerCreds.process_access_token, h, Bool.false_eq_true, if_false]
  split_ifs <;> simp

/-- **C6** (confirmed): the not-verified error is raised by the `oauth`
accessor exactly when no access token has been initialised; a freshly
constructed (request-token-only) public credential fails that way;
construction itself never raises not-verified; and after a `verify` that
completed without an exception the accessor succeeds. -/
theorem oauth_not_verified_spec :
    (∀ (ck cs : String) (cb sc : Option String) (resp : HttpResponse) (c : PubCreds),
      PublicCredentials.init ck cs cb false none none sc resp = .ok c →
      c.oauth = .error .notVerified) ∧
    (∀ c : PubCreds, c.oauth = .error .notVerified ↔ c._oauth = none) ∧
    (∀ (ck cs : String) (cb : Option String) (v : Bool)
       (tok sec : Option String) (sc : Option String) (resp : HttpResponse),
      PublicCredentials.init ck cs cb v tok sec sc resp ≠ .error (.xero .notVerified)) ∧
    (∀ (c : PubCreds) (resp : HttpResponse),
      (c.verify resp).2 = none → ∃ o, (c.verify resp).1.oauth = .ok o) := by
  refine ⟨?_, ?_, ?_, ?_⟩
  · intro ck cs cb sc resp c hinit
    cases hs200 : resp.status == 200 with
    | true =>
        simp only [PublicCredentials.init, pyTruthyOpt, Bool.and_self, Bool.false_eq_true,
          if_false, hs200, if_true] at hinit
        cases h1 : qsGet (parse_qs resp.text) "oauth_token" with
        | none => simp [h1] at hinit
        | some tok =>
            cases h2 : qsGet (parse_qs resp.text) "oauth_token_secret" with
            | none => simp [h1, h2] at hinit
            | some sec =>
                simp only [h1, h2, Except.ok.injEq] at hinit
                subst hinit
                rfl
    | false =>
        simp only [PublicCredentials.init, pyTruthyOpt, Bool.and_self, Bool.false_eq_true,
          if_false, hs200] at hinit
        split_ifs at hinit
  · intro c
    cases h : c._oauth <;> simp [PubCreds.oauth, h]
  · intro ck cs cb v tok sec sc resp hcon
    simp only [PublicCredentials.init] at hcon
    cases htr : pyTruthyOpt tok && pyTruthyOpt sec with
    | true =>
        simp only [htr, if_true] at hcon
        cases v <;> simp_all
    | false =>
        simp only [htr, Bool.false_eq_true, if_false] at hcon
        cases hs200 : resp.status == 200 with
        | true =>
            simp only [hs200, if_true] at hcon
            cases h1 : qsGet (parse_qs resp.text) "oauth_token" with
            | none => simp [h1] at hcon
            | some t1 =>
                cases h2 : qsGet (parse_qs resp.text) "oauth_token_secret" with
                | none => simp [h1, h2] at hcon
                | some t2 => simp [h1, h2] at hcon
        | false =>
            simp only [hs200, Bool.false_eq_true, if_false] at hcon
            split_ifs at hcon <;> simp_all
  · intro c resp hnone
    cases hs200 : resp.status == 200 with
    | true =>
        simp only [PubCreds.verify, hs200, if_true] at hnone ⊢
        cases h1 : qsGet (parse_qs resp.text) "oauth_token" with
        | none => simp [h1] at hnone
        | some tok =>
            cases h2 : qsGet (parse_qs resp.text) "oauth_token_secret" with
            | none => simp [h1, h2] at hnone
            | some sec =>
                simp only [h1, h2]
                exact ⟨_, rfl⟩
    | false =>
        have := (pub_verify_non200 c resp hs200).2
        rw [hnone] at this
        simp at this

/-- A concrete unverified public credential: the state produced by a
successful request-token construction. -/
def pubFresh : PubCreds :=
  { consumer_key := "k", consumer_secret := "s", callback_uri := none,
    verified := false, oauth_token := some "a", oauth_token_secret := some "b",
    scope := none, _oauth := none }

theorem oauth_not_verified_spec_witness :
    pubFresh.oauth = .error .notVerified ∧
    (∃ o, (pubFresh.verify ⟨200, "oauth_token=c&oauth_token_secret=d"⟩).1.oauth = .ok o) :=
  ⟨oauth_not_verified_spec.1 "k" "s" none none
      ⟨200, "oauth_token=a&oauth_token_secret=b"⟩ pubFresh (by rfl),
   oauth_not_verified_spec.2.2.2 pubFresh ⟨200, "oauth_token=c&oauth_token_secret=d"⟩
      (by rfl)⟩

/-- **C7** (confirmed): for a 200 partner access-token response carrying
`oauth_expires_in = n` (and `oauth_authorization_expires_in = n2`)
processed at model time `now`, the stored expiries are `now + n` and
`now + n2`, and no exception is raised. -/
theorem partner_expiry_spec (c : PartnerCreds) (resp : HttpResponse) (now : Int)
    (tok sec sh expin aexpin : String) (n n2 : Int)
    (hs : resp.status = 200)
    (h1 : qsGet (parse_qs resp.text) "oauth_token" = some tok)
    (h2 : qsGet (parse_qs resp.text) "oauth_token_secret" = some sec)
    (h3 : qsGet (parse_qs resp.text) "oauth_expires_in" = some expin)
    (h4 : qsGet (parse_qs resp.text) "oauth_session_handle" = some sh)
    (h5 : qsGet (parse_qs resp.text) "oauth_authorization_expires_in" = some aexpin)
    (h6 : pyInt expin = some n) (h7 : pyInt aexpin = some n2) :
    (c.process_access_token resp now).1.oauth_expires_at = some (now + n) ∧
    (c.process_access_token resp now).1.oauth_authorization_expires_at = some (now + n2) ∧
    (c.process_access_token resp now).2 = none := by
  have hs200 : (resp.status == 200) = true := by simp [hs]
  simp only [PartnerCreds.process_access_token, hs200, if_true, h1, h2, h3, h4, h5, h6, h7]
  simp

/-- A concrete partner credential for witnesses. -/
def partnerSample : PartnerCreds :=
  { consumer_key := "k", consumer_secret := "s", rsa_key := "r", client_cert := "c",
    callback_uri := none, verified := false, oauth_token := some "a",
    oauth_token_secret := some "b", oauth_session_handle := none,
    oauth_expires_at := none, oauth_authorization_expires_at := none,
    oauth_expires_in := none, oauth_authorisation_expires_in := none,
    scope := none, _oauth := none }

def partnerTokenText : String :=
  "oauth_token=T&oauth_token_secret=S&oauth_expires_in=1800&oauth_session_handle=H&oauth_authorization_expires_in=3600"

theorem partner_expiry_spec_witness :
    (partnerSample.process_access_token ⟨200, partnerTokenText⟩ 1000).1.oauth_expires_at =
        some (1000 + 1800) ∧
    (partnerSample.process_access_token
        ⟨200, partnerTokenText⟩ 1000).1.oauth_authorization_expires_at =
        some (1000 + 3600) ∧
    (partnerSample.process_access_token ⟨200, partnerTokenText⟩ 1000).2 = none :=
  partner_expiry_spec partnerSample ⟨200, partnerTokenText⟩ 1000
    "T" "S" "H" "1800" "3600" 1800 3600 rfl (by rfl) (by rfl) (by rfl) (by rfl) (by rfl)
    (by rfl) (by rfl)

/-- **C10** (confirmed): on any non-200 response, public `verify` and the
partner access-token processing shared by `verify` and `refresh` raise and
leave every credential field unchanged. -/
theorem verify_refresh_atomic :
    (∀ (c : PubCreds) (resp : HttpResponse), resp.status ≠ 200 →
      (c.verify resp).1 = c ∧ (c.verify resp).2.isSome) ∧
    (∀ (c : PartnerCreds) (resp : HttpResponse) (now : Int), resp.status ≠ 200 →
      (c.verify resp now).1 = c ∧ (c.verify resp now).2.isSome) ∧
    (∀ (c : PartnerCreds) (resp : HttpResponse) (now : Int), resp.status ≠ 200 →
      (c.refresh resp now).1 = c ∧ (c.refresh resp now).2.isSome) := by
  have hb : ∀ resp : HttpResponse, resp.status ≠ 200 → (resp.status == 200) = false :=
    fun resp h => by simp [h]
  refine ⟨fun c resp h => pub_verify_non200 c resp (hb resp h),
          fun c resp now h => partner_process_non200 c resp now (hb resp h),
          fun c resp now h => partner_process_non200 c resp now (hb resp h)⟩

theorem verify_refresh_atomic_witness :
    ((pubFresh.verify ⟨400, ""⟩).1 = pubFresh ∧ (pubFresh.verify ⟨400, ""⟩).2.isSome) ∧
    ((partnerSample.verify ⟨400, ""⟩ 0).1 = partnerSample ∧
      (partnerSample.verify ⟨400, ""⟩ 0).2.isSome) ∧
    ((partnerSample.refresh ⟨503, ""⟩ 0).1 = partnerSample ∧
      (partnerSample.refresh ⟨503, ""⟩ 0).2.isSome) :=
  ⟨verify_refresh_atomic.1 pubFresh ⟨400, ""⟩ (by decide),
   verify_refresh_atomic.2.1 partnerSample ⟨400, ""⟩ 0 (by decide),
   verify_refresh_atomic.2.2 partnerSample ⟨503, ""⟩ 0 (by decide)⟩

/-! ## C1: the decode∘encode round trip

`decode` here is the decoding of the contents under the root tag (the
pipeline's `convert_to_dict(walk_dom(dom))` wraps exactly one more
`{rootTag: ...}` layer around it, see `Manager.decode`). -/

def isClassified (k : String) : Bool :=
  BOOLEAN_FIELDS.contains k || DATETIME_FIELDS.contains k || DATE_FIELDS.contains k

/-- A tag treated as repeated-element marker by `convert_to_dict`:
a declared multi-line name or the manager's singular. -/
def collectionKey (sing k : String) : Bool :=
  MULTI_LINES.contains k || k == sing

mutual

/-- The claim's hypotheses on a record, following its words: scalar
fields respect the boolean/date/datetime field-classification tables, and
sequence-valued keys follow the pluralization rules (a plural key whose
singular — via the exception table, else suffix-stripping — is a
recognized repeated-element tag, wrapping a sequence of mappings). -/
def respectsVal (sing k : String) : SVal → Bool
  | .str _ => !(isClassified k)
  | .bool _ => BOOLEAN_FIELDS.contains k
  | .dt _ => DATETIME_FIELDS.contains k
  | .date _ => DATE_FIELDS.contains k
  | .obj f => respectsFields sing f
  | .arr items =>
      lastIsS k && collectionKey sing (pluralFix (dropLastChar k)) &&
        respectsItems sing items
  | .junk => false

def respectsFields (sing : String) : List (String × SVal) → Bool
  | [] => true
  | (k, v) :: rest => respectsVal sing k v && respectsFields sing rest

def respectsItems (sing : String) : List SVal → Bool
  | [] => true
  | .obj f :: rest => respectsFields sing f && respectsItems sing rest
  | _ :: _ => false

end

/-- The singleton-sequence record that breaks the round trip. -/
def phonesRecord : List (String × SVal) :=
  [("Phones", .arr [.obj [("PhoneNumber", .str "123")]])]

/-- **C1** counterexample: the record `{'Phones': [{'PhoneNumber': '123'}]}`
satisfies the claim's classification and pluralization hypotheses, but a
one-element sequence does not survive the round trip: the decoder's
two-entry branch (manager.py:111-114) rebuilds `{'Phones': {'Phone':
{'PhoneNumber': '123'}}}` instead of the original list. -/
theorem roundtrip_counterexample :
    respectsFields (Manager.create "Contacts" XERO_API_URL "core").singular phonesRecord = true ∧
    encodeRecord "Contact" phonesRecord =
      some (XmlNode.elem "Contact"
        [.elem "Phones" [.elem "Phone" [.elem "PhoneNumber" [.text "123"]]]]) ∧
    (Manager.create "Contacts" XERO_API_URL "core").decode
        (XmlNode.elem "Contact"
          [.elem "Phones" [.elem "Phone" [.elem "PhoneNumber" [.text "123"]]]]) =
      .obj [("Phones", .obj [("Phone", .obj [("PhoneNumber", .str "123")])])] ∧
    SVal.obj [("Phones", SVal.obj [("Phone", SVal.obj [("PhoneNumber", SVal.str "123")])])] ≠
      .obj phonesRecord := by
  refine ⟨?_, ?_, ?_, ?_⟩
  · simp [respectsFields, respectsVal, respectsItems, phonesRecord, Manager.create,
      collectionKey, isClassified, pluralFix, PLURAL_EXCEPTIONS, MULTI_LINES,
      BOOLEAN_FIELDS, DATETIME_FIELDS, DATE_FIELDS, lastIsS, dropLastChar, singularOf]
  · rfl
  · simp only [Manager.decode, Manager.create, singularOf]
    simp [convert_to_dict.eq_def, walk_dom_list, pyStrip, pyStripChars, isPySpace]
  · simp [phonesRecord]

/-! ### Supporting lemmas for the round-trip theorem -/

theorem foldl_attach {α β : Type} (l : List α) (f : β → α → β) (init : β) :
    (l.attach.foldl (fun b p => f b p.1) init) = l.foldl f init := by
  rw [show l.attach.foldl (fun b p => f b p.1) init =
        (l.attach.map Subtype.val).foldl f init by rw [List.foldl_map],
      List.attach_map_subtype_val]

/-- The pair list `zip(keys, lists)` of `convert_to_dict`. -/
def pairsOf (dl : List TupElem) : List (String × List TupElem) :=
  (dl.filterMap strOf).zip (dl.filterMap tupOf)

theorem convert_gt2 (sing : String) (dl : List TupElem) (h : dl.length > 2) :
    convert_to_dict sing dl =
      (List.foldl
        (fun (out : Out) (q : String × List TupElem) =>
          convertStep sing q.1 q.2 (convert_to_dict sing q.2) out)
        (.dictOut []) (pairsOf dl)).toSVal := by
  rw [convert_to_dict.eq_def]
  simp only [h, if_true, pairsOf]
  rw [foldl_attach ((dl.filterMap strOf).zip (dl.filterMap tupOf))
        (fun (out : Out) (q : String × List TupElem) =>
          convertStep sing q.1 q.2 (convert_to_dict sing q.2) out) (.dictOut [])]

theorem convert_len2 (sing k : String) (d : List TupElem) :
    convert_to_dict sing [.s k, .t d] = .obj [(k, convert_to_dict sing d)] := by
  rw [convert_to_dict.eq_def]
  simp

theorem convert_len1 (sing v : String) :
    convert_to_dict sing [.s v] = .str v := by
  rw [convert_to_dict.eq_def]
  simp

theorem walk_dom_list_append (ns1 ns2 : List XmlNode) :
    walk_dom_list (ns1 ++ ns2) = walk_dom_list ns1 ++ walk_dom_list ns2 := by
  induction ns1 with
  | nil => simp [walk_dom_list]
  | cons n rest ih =>
      cases n with
      | elem t cs => simp [walk_dom_list, ih]
      | text d => simp [walk_dom_list, ih]

theorem walk_dom_list_cons_elem (t : String) (cs : List XmlNode) (rest : List XmlNode) :
    walk_dom_list (.elem t cs :: rest) = .s t :: .t (walk_dom_list cs) :: walk_dom_list rest := by
  simp [walk_dom_list]

theorem pairsOf_cons (k : String) (w : List TupElem) (dl : List TupElem) :
    pairsOf (.s k :: .t w :: dl) = (k, w) :: pairsOf dl := by
  simp [pairsOf, strOf, tupOf]

theorem pairsOf_nil : pairsOf [] = [] := rfl

/-- `key in dict` on the association-list model. -/
def hasKey (kvs : List (String × SVal)) (k : String) : Bool :=
  kvs.any (fun p => p.1 == k)

theorem setKey_fresh {kvs : List (String × SVal)} {k : String} (v : SVal)
    (h : hasKey kvs k = false) : setKey kvs k v = kvs ++ [(k, v)] := by
  unfold setKey
  rw [show kvs.any (fun p => p.1 == k) = false from h]
  simp

def keysOf (f : List (String × SVal)) : List String := f.map Prod.fst

def allDistinct : List String → Bool
  | [] => true
  | k :: rest => !(rest.contains k) && allDistinct rest

theorem hasKey_eq_contains (kvs : List (String × SVal)) (k : String) :
    hasKey kvs k = (keysOf kvs).contains k := by
  induction kvs with
  | nil => rfl
  | cons p rest ih =>
      rcases p with ⟨pk, pv⟩
      simp only [hasKey, List.any_cons] at *
      rw [ih]
      by_cases hpk : pk = k
      · subst hpk
        simp [keysOf]
      · have h1 : (pk == k) = false := by simp [hpk]
        have h2 : (k == pk) = false := by simp [Ne.symm hpk]
        simp [keysOf, List.contains_cons, h1, h2]

theorem allDistinct_iff (l : List String) : allDistinct l = true ↔ l.Nodup := by
  induction l with
  | nil => simp [allDistinct]
  | cons k rest ih =>
      simp only [allDistinct, Bool.and_eq_true, Bool.not_eq_true', ih, List.nodup_cons]
      constructor
      · rintro ⟨hc, hn⟩
        have hnm : k ∉ rest := by simpa using hc
        exact ⟨hnm, hn⟩
      · rintro ⟨hm, hn⟩
        refine ⟨?_, hn⟩
        by_cases hc : rest.contains k
        · exact absurd (List.elem_iff.mp hc) hm
        · simpa using hc

theorem allDistinct_append_cons {xs ys : List String} {k : String}
    (h : allDistinct (xs ++ k :: ys) = true) :
    xs.contains k = false ∧ allDistinct ((xs ++ [k]) ++ ys) = true := by
  rw [allDistinct_iff] at h
  constructor
  · have hd := (List.nodup_append.mp h).2.2
    have hknot : k ∉ xs := fun hk => hd hk (by simp)
    by_cases hc : xs.contains k
    · exact absurd (List.elem_iff.mp hc) hknot
    · simpa using hc
  · rw [allDistinct_iff, List.append_assoc]
    simpa using h

theorem dropWhile_eq_self_head {p : Char → Bool} {cs : List Char}
    (h : ∀ c, cs.head? = some c → p c = false) : cs.dropWhile p = cs := by
  cases cs with
  | nil => rfl
  | cons c rest => simp [List.dropWhile_cons, h c rfl]

theorem pyStripChars_eq_self {cs : List Char}
    (hh : ∀ c, cs.head? = some c → isPySpace c = false)
    (hl : ∀ c, cs.getLast? = some c → isPySpace c = false) :
    pyStripChars cs = cs := by
  unfold pyStripChars
  rw [dropWhile_eq_self_head hh]
  rw [dropWhile_eq_self_head (fun c hc => hl c (by rwa [← List.head?_reverse]))]
  exact List.reverse_reverse cs

theorem not_pySpace_of_isDigit {c : Char} (h : c.isDigit = true) : isPySpace c = false := by
  unfold isPySpace
  simp only [Bool.or_eq_false_iff, beq_eq_false_iff_ne]
  refine ⟨⟨⟨⟨⟨?_, ?_⟩, ?_⟩, ?_⟩, ?_⟩, ?_⟩ <;>
    (rintro rfl; revert h; decide)

theorem getLast?_cons_append (c : Char) (A : List Char) (d : Char) (B : List Char) :
    (c :: (A ++ d :: B)).getLast? = (d :: B).getLast? := by
  rw [← List.cons_append, List.getLast?_append_cons]

theorem getLast?_cons_ne {c : Char} {l : List Char} (h : l ≠ []) :
    (c :: l).getLast? = l.getLast? := by
  cases l with
  | nil => exact absurd rfl h
  | cons b bs => exact List.getLast?_cons_cons

theorem head?_append_ne_nil {a b : List Char} (h : a ≠ []) : (a ++ b).head? = a.head? := by
  cases a with
  | nil => exact absurd rfl h
  | cons c cs => rfl

theorem padChars_head_digit {w n : Nat} {c : Char}
    (h : (padChars w n).head? = some c) : c.isDigit = true :=
  padChars_all_digit w n c (List.mem_of_mem_head? h)

theorem padChars_getLast_digit {w n : Nat} {c : Char}
    (h : (padChars w n).getLast? = some c) : c.isDigit = true :=
  padChars_all_digit w n c (List.mem_of_mem_getLast? h)

theorem strip_chars_pyStrDateTime (t : PyDateTime) :
    pyStripChars (pyStrDateTimeChars t) = pyStrDateTimeChars t := by
  apply pyStripChars_eq_self
  · intro c hc
    rw [pyStrDateTimeChars, head?_append_ne_nil (padChars_ne_nil 4 t.year)] at hc
    exact not_pySpace_of_isDigit (padChars_head_digit hc)
  · intro c hc
    rw [pyStrDateTimeChars, List.getLast?_append_cons, getLast?_cons_append,
      getLast?_cons_append, getLast?_cons_append, getLast?_cons_append,
      getLast?_cons_ne (padChars_ne_nil 2 t.second)] at hc
    exact not_pySpace_of_isDigit (padChars_getLast_digit hc)

theorem strip_chars_pyStrDate (d : PyDate) :
    pyStripChars (pyStrDate d).data = (pyStrDate d).data := by
  apply pyStripChars_eq_self
  · intro c hc
    rw [show (pyStrDate d).data =
          padChars 4 d.year ++ '-' :: (padChars 2 d.month ++ '-' :: padChars 2 d.day)
        from rfl, head?_append_ne_nil (padChars_ne_nil 4 d.year)] at hc
    exact not_pySpace_of_isDigit (padChars_head_digit hc)
  · intro c hc
    rw [show (pyStrDate d).data =
          padChars 4 d.year ++ '-' :: (padChars 2 d.month ++ '-' :: padChars 2 d.day)
        from rfl, List.getLast?_append_cons,
      getLast?_cons_append, getLast?_cons_ne (padChars_ne_nil 2 d.day)] at hc
    exact not_pySpace_of_isDigit (padChars_getLast_digit hc)

theorem boolean_not_datetime_date {k : String} (h : BOOLEAN_FIELDS.contains k = true) :
    (DATETIME_FIELDS.contains k || DATE_FIELDS.contains k) = false := by
  have hm := List.elem_iff.mp h
  simp only [BOOLEAN_FIELDS, List.mem_cons, List.not_mem_nil, or_false] at hm
  rcases hm with rfl | rfl <;> decide

theorem datetime_not_boolean_date {k : String} (h : DATETIME_FIELDS.contains k = true) :
    BOOLEAN_FIELDS.contains k = false ∧ DATE_FIELDS.contains k = false := by
  have hm := List.elem_iff.mp h
  simp only [DATETIME_FIELDS, List.mem_cons, List.not_mem_nil, or_false] at hm
  rcases hm with rfl | rfl | rfl | rfl | rfl | rfl | rfl | rfl | rfl <;> exact ⟨by decide, by decide⟩

theorem date_not_boolean_datetime {k : String} (h : DATE_FIELDS.contains k = true) :
    BOOLEAN_FIELDS.contains k = false ∧ DATETIME_FIELDS.contains k = false := by
  have hm := List.elem_iff.mp h
  simp only [DATE_FIELDS, List.mem_cons, List.not_mem_nil, or_false] at hm
  rcases hm with rfl | rfl | rfl <;> exact ⟨by decide, by decide⟩

theorem coerceScalar_str {k s : String} (h : isClassified k = false) :
    coerceScalar k s = .str s := by
  simp only [isClassified, Bool.or_eq_false_iff] at h
  have h1 : k ∉ BOOLEAN_FIELDS := by simpa using h.1.1
  have h2 : k ∉ DATETIME_FIELDS := by simpa using h.1.2
  have h3 : k ∉ DATE_FIELDS := by simpa using h.2
  simp [coerceScalar, h1, h2, h3]

theorem coerceScalar_bool {k : String} (h : BOOLEAN_FIELDS.contains k = true) (b : Bool) :
    coerceScalar k (pyStrScalar (.bool b)) = .bool b := by
  have hm : k ∈ BOOLEAN_FIELDS := List.elem_iff.mp h
  have hnd := boolean_not_datetime_date h
  simp only [Bool.or_eq_false_iff] at hnd
  have h2 : k ∉ DATETIME_FIELDS := by simpa using hnd.1
  have h3 : k ∉ DATE_FIELDS := by simpa using hnd.2
  cases b
  · have hv : (pyLower (pyStrScalar (SVal.bool false)) == "true") = false := by decide
    simp only [coerceScalar, pyStrScalar] at *
    simp [hm, h2, h3, hv]
  · have hv : (pyLower (pyStrScalar (SVal.bool true)) == "true") = true := by decide
    simp only [coerceScalar, pyStrScalar] at *
    simp [hm, h2, h3, hv]

theorem coerceScalar_dt {k : String} (h : DATETIME_FIELDS.contains k = true) (t : PyDateTime) :
    coerceScalar k (pyStrDateTime t) = .dt t := by
  obtain ⟨hb, hd⟩ := datetime_not_boolean_date h
  have hm : k ∈ DATETIME_FIELDS := List.elem_iff.mp h
  have h1 : k ∉ BOOLEAN_FIELDS := by simpa using hb
  have h3 : k ∉ DATE_FIELDS := by simpa using hd
  simp [coerceScalar, hm, h1, h3, dateutilParse_pyStrDateTime]

theorem coerceScalar_date {k : String} (h : DATE_FIELDS.contains k = true) (d : PyDate) :
    coerceScalar k (pyStrDate d) = .date d := by
  obtain ⟨hb, hd⟩ := date_not_boolean_datetime h
  have hm : k ∈ DATE_FIELDS := List.elem_iff.mp h
  have h1 : k ∉ BOOLEAN_FIELDS := by simpa using hb
  have h2 : k ∉ DATETIME_FIELDS := by simpa using hd
  simp [coerceScalar, hm, h1, h2, dateutilParse_pyStrDate, PyDateTime.date]

theorem pluralFix_eq (s : String) :
    pluralFix s =
      if s = "Addresse" then "Address"
      else if s = "TrackingCategories" then "TrackingCategory"
      else s := by
  by_cases h1 : s = "Addresse"
  · subst h1; decide
  · by_cases h2 : s = "TrackingCategories"
    · subst h2; decide
    · have b1 : ("Addresse" == s) = false := by simp [Ne.symm h1]
      have b2 : ("TrackingCategories" == s) = false := by simp [Ne.symm h2]
      simp [pluralFix, PLURAL_EXCEPTIONS, List.find?, b1, b2, h1, h2]

theorem pluralFix_idem (s : String) : pluralFix (pluralFix s) = pluralFix s := by
  by_cases h1 : s = "Addresse"
  · subst h1; decide
  · by_cases h2 : s = "TrackingCategories"
    · subst h2; decide
    · have hs : pluralFix s = s := by rw [pluralFix_eq]; simp [h1, h2]
      rw [hs]
      exact hs

/-- A string scalar that survives `walk_dom`'s `.strip()` unchanged. -/
def strOk (s : String) : Bool := pyStrip s == s && !(s == "")

mutual

/-- Well-formedness of a field appearing in a mapping with at least two
fields (any position after the first; the first additionally needs
`collectionKey` to be false, see `wfFields`).  These are the claim's
hypotheses plus exactly the conditions the counterexample family forces:
strip-invariant non-empty strings, classified scalars away from
collection-tag keys, non-empty sub-mappings, and sequences of at least
two well-formed mappings. -/
def wfField (sing k : String) : SVal → Bool
  | .str s => strOk s && !(isClassified k)
  | .bool _ => BOOLEAN_FIELDS.contains k && !(collectionKey sing k)
  | .dt _ => DATETIME_FIELDS.contains k && !(collectionKey sing k)
  | .date _ => DATE_FIELDS.contains k && !(collectionKey sing k)
  | .obj f => wfFields sing f
  | .arr items =>
      lastIsS k && collectionKey sing (pluralFix (dropLastChar k)) &&
        decide (2 ≤ items.length) && wfItems sing items
  | .junk => false

/-- Well-formedness of the only field of a one-field mapping: the decoder's
two-entry branch applies no scalar coercion, so classified scalars cannot
appear here. -/
def wfSingle (sing k : String) : SVal → Bool
  | .str s => strOk s && !(isClassified k)
  | .obj f => wfFields sing f
  | .arr items =>
      lastIsS k && collectionKey sing (pluralFix (dropLastChar k)) &&
        decide (2 ≤ items.length) && wfItems sing items
  | _ => false

def wfFields (sing : String) : List (String × SVal) → Bool
  | [] => false
  | [(k, v)] => wfSingle sing k v
  | (k, v) :: rest =>
      !(collectionKey sing k) && wfField sing k v && wfRest sing rest &&
        allDistinct (k :: keysOf rest)

def wfRest (sing : String) : List (String × SVal) → Bool
  | [] => true
  | (k, v) :: rest => wfField sing k v && wfRest sing rest

def wfItems (sing : String) : List SVal → Bool
  | [] => true
  | .obj f :: rest => wfFields sing f && wfItems sing rest
  | _ :: _ => false

end

/-- The fold step of `convert_to_dict` with the recursive conversion
plugged in. -/
def convStep (sing : String) : Out → (String × List TupElem) → Out :=
  fun out q => convertStep sing q.1 q.2 (convert_to_dict sing q.2) out

theorem convert_gt2' (sing : String) (dl : List TupElem) (h : dl.length > 2) :
    convert_to_dict sing dl =
      (List.foldl (convStep sing) (.dictOut []) (pairsOf dl)).toSVal :=
  convert_gt2 sing dl h

theorem string_ne_empty_of_data {cs : List Char} (h : cs ≠ []) : (⟨cs⟩ : String) ≠ "" := by
  intro hcon
  exact h (congrArg String.data hcon)

theorem strip_pyStrDateTime (t : PyDateTime) :
    pyStrip (pyStrDateTime t) = pyStrDateTime t :=
  congrArg String.mk (strip_chars_pyStrDateTime t)

theorem pyStrDateTime_ne_empty (t : PyDateTime) : pyStrDateTime t ≠ "" := by
  apply string_ne_empty_of_data
  simp [pyStrDateTimeChars, padChars_ne_nil]

theorem strip_pyStrDate (d : PyDate) : pyStrip (pyStrDate d) = pyStrDate d :=
  congrArg String.mk (strip_chars_pyStrDate d)

theorem pyStrDate_ne_empty (d : PyDate) : pyStrDate d ≠ "" := by
  apply string_ne_empty_of_data
  simp [pyStrDate, padChars_ne_nil]

theorem walk_dom_list_text {s : String} (h1 : pyStrip s = s) (h2 : s ≠ "") :
    walk_dom_list [.text s] = [.s s] := by
  have : (pyStrip s == "") = false := by simp [h1, h2]
  simp [walk_dom_list, this, h1, h2]

theorem walk_scalar_elem {k s : String} (h1 : pyStrip s = s) (h2 : s ≠ "") :
    walk_dom_list [.elem k [.text s]] = [.s k, .t [.s s]] := by
  rw [walk_dom_list_cons_elem, walk_dom_list_text h1 h2]
  simp [walk_dom_list]

theorem convertStep_coll {sing k : String} {w : List TupElem} {cval : SVal}
    (h : collectionKey sing k = true) :
    (∀ kvs, kvs ≠ [] → convertStep sing k w cval (.dictOut kvs) =
        .dictOut (setKey kvs k cval)) ∧
    convertStep sing k w cval (.dictOut []) = .listOut [cval] ∧
    (∀ vs, convertStep sing k w cval (.listOut vs) = .listOut (vs ++ [cval])) := by
  unfold collectionKey at h
  refine ⟨?_, ?_, ?_⟩
  · intro kvs hk
    cases kvs with
    | nil => exact absurd rfl hk
    | cons p ps =>
        unfold convertStep
        rw [h]
        simp
  · unfold convertStep
    rw [h]
    simp
  · intro vs
    unfold convertStep
    rw [h]
    simp

theorem convertStep_noncoll_len1 {sing k txt : String} {cval : SVal}
    (h : collectionKey sing k = false) (kvs : List (String × SVal)) :
    convertStep sing k [.s txt] cval (.dictOut kvs) =
      .dictOut (setKey kvs k (coerceScalar k txt)) := by
  unfold collectionKey at h
  unfold convertStep
  rw [h]
  simp

theorem convertStep_noncoll_long {sing k : String} {w : List TupElem} {cval : SVal}
    (h : collectionKey sing k = false) (hw : w.length > 1) (kvs : List (String × SVal)) :
    convertStep sing k w cval (.dictOut kvs) = .dictOut (setKey kvs k cval) := by
  unfold collectionKey at h
  have h1 : (w.length == 1) = false := by
    simp only [beq_eq_false_iff_ne]
    omega
  unfold convertStep
  rw [h, h1]
  simp [hw]

theorem walk_dom_list_nil : walk_dom_list [] = [] := by simp [walk_dom_list]

/-! Unfolding equations for the well-formedness predicates (their
definitional `match` forms resist direct `simp` destructuring). -/

theorem wfField_str (sing k s : String) :
    wfField sing k (.str s) = (strOk s && !(isClassified k)) := by
  simp only [wfField]

theorem wfField_bool (sing k : String) (b : Bool) :
    wfField sing k (.bool b) =
      (BOOLEAN_FIELDS.contains k && !(collectionKey sing k)) := by
  simp only [wfField]

theorem wfField_dt (sing k : String) (t : PyDateTime) :
    wfField sing k (.dt t) =
      (DATETIME_FIELDS.contains k && !(collectionKey sing k)) := by
  simp only [wfField]

theorem wfField_date (sing k : String) (d : PyDate) :
    wfField sing k (.date d) =
      (DATE_FIELDS.contains k && !(collectionKey sing k)) := by
  simp only [wfField]

theorem wfField_obj (sing k : String) (f : List (String × SVal)) :
    wfField sing k (.obj f) = wfFields sing f := by
  simp only [wfField]

theorem wfField_arr (sing k : String) (items : List SVal) :
    wfField sing k (.arr items) =
      (lastIsS k && collectionKey sing (pluralFix (dropLastChar k)) &&
        decide (2 ≤ items.length) && wfItems sing items) := by
  simp only [wfField]

theorem wfSingle_str (sing k s : String) :
    wfSingle sing k (.str s) = (strOk s && !(isClassified k)) := by
  simp only [wfSingle]

theorem wfSingle_obj (sing k : String) (f : List (String × SVal)) :
    wfSingle sing k (.obj f) = wfFields sing f := by
  simp only [wfSingle]

theorem wfSingle_arr (sing k : String) (items : List SVal) :
    wfSingle sing k (.arr items) =
      (lastIsS k && collectionKey sing (pluralFix (dropLastChar k)) &&
        decide (2 ≤ items.length) && wfItems sing items) := by
  simp only [wfSingle]

theorem wfFields_nil (sing : String) : wfFields sing [] = false := by
  simp only [wfFields]

theorem wfFields_single (sing k : String) (v : SVal) :
    wfFields sing [(k, v)] = wfSingle sing k v := by
  simp only [wfFields]

theorem wfFields_cons2 (sing k : String) (v : SVal) (kv2 : String × SVal)
    (rest2 : List (String × SVal)) :
    wfFields sing ((k, v) :: kv2 :: rest2) =
      (!(collectionKey sing k) && wfField sing k v && wfRest sing (kv2 :: rest2) &&
        allDistinct (k :: keysOf (kv2 :: rest2))) := by
  simp only [wfFields]

theorem wfRest_cons (sing k : String) (v : SVal) (rest : List (String × SVal)) :
    wfRest sing ((k, v) :: rest) = (wfField sing k v && wfRest sing rest) := by
  simp only [wfRest]

theorem wfItems_cons_obj (sing : String) (f : List (String × SVal)) (rest : List SVal) :
    wfItems sing (.obj f :: rest) = (wfFields sing f && wfItems sing rest) := by
  simp only [wfItems]

/-- Combined round-trip induction, by a `Nat` bound on `sizeOf`: every
well-formed field, field list, tail, and item list survives
`dict_to_xml_*` encoding followed by `walk_dom_list`/`convert_to_dict`
decoding.  The five conjuncts are split into the standalone lemmas
`rt_field`, `rt_fields`, `rt_rest`, `rt_items` and `rt_arr` below. -/
theorem rt_main (n : Nat) :
    (∀ sing k : String, ∀ v : SVal, sizeOf v ≤ n → wfField sing k v = true →
      ∃ node w, dict_to_xml_field k v = some node ∧
        walk_dom_list [node] = [.s k, .t w] ∧
        ∀ kvs : List (String × SVal), hasKey kvs k = false →
          (kvs = [] → collectionKey sing k = false) →
          convStep sing (.dictOut kvs) (k, w) = .dictOut (kvs ++ [(k, v)])) ∧
    (∀ sing : String, ∀ f : List (String × SVal), sizeOf f ≤ n →
      wfFields sing f = true →
      ∃ ns, dict_to_xml_fields f = some ns ∧
        (walk_dom_list ns).length = 2 * f.length ∧
        convert_to_dict sing (walk_dom_list ns) = .obj f) ∧
    (∀ sing : String, ∀ rest acc : List (String × SVal), sizeOf rest ≤ n →
      acc ≠ [] → allDistinct (keysOf acc ++ keysOf rest) = true →
      wfRest sing rest = true →
      ∃ ns, dict_to_xml_fields rest = some ns ∧
        (walk_dom_list ns).length = 2 * rest.length ∧
        List.foldl (convStep sing) (.dictOut acc) (pairsOf (walk_dom_list ns)) =
          .dictOut (acc ++ rest)) ∧
    (∀ sing pn : String, ∀ items vs : List SVal, sizeOf items ≤ n →
      collectionKey sing (pluralFix pn) = true → wfItems sing items = true →
      ∃ ns, wrapItems pn items = some ns ∧
        (walk_dom_list ns).length = 2 * items.length ∧
        List.foldl (convStep sing) (.listOut vs) (pairsOf (walk_dom_list ns)) =
          .listOut (vs ++ items)) ∧
    (∀ sing pn : String, ∀ items : List SVal, sizeOf items ≤ n →
      collectionKey sing (pluralFix pn) = true → 2 ≤ items.length →
      wfItems sing items = true →
      ∃ ns, wrapItems pn items = some ns ∧
        (walk_dom_list ns).length = 2 * items.length ∧
        convert_to_dict sing (walk_dom_list ns) = .arr items) := by
  induction n with
  | zero =>
      refine ⟨?_, ?_, ?_, ?_, ?_⟩
      · intro sing k v hsz
        cases v <;> simp_arith at hsz
      · intro sing f hsz
        cases f <;> simp_arith at hsz
      · intro sing rest acc hsz
        cases rest <;> simp_arith at hsz
      · intro sing pn items vs hsz
        cases items <;> simp_arith at hsz
      · intro sing pn items hsz
        cases items <;> simp_arith at hsz
  | succ n ih =>
      obtain ⟨ihF, ihFs, ihR, ihI, ihA⟩ := ih
      refine ⟨?_, ?_, ?_, ?_, ?_⟩
      -- fields of a mapping value
      · intro sing k v hsz h
        revert h
        cases v with
        | str s =>
            intro h
            rw [wfField_str, Bool.and_eq_true] at h
            obtain ⟨hok, hcls'⟩ := h
            have hcls : isClassified k = false := by simpa using hcls'
            rw [strOk, Bool.and_eq_true, beq_iff_eq] at hok
            have hstrip : pyStrip s = s := hok.1
            have hne : s ≠ "" := by simpa using hok.2
            refine ⟨.elem k [.text s], [.s s], rfl, walk_scalar_elem hstrip hne, ?_⟩
            intro kvs hfresh hnilc
            by_cases hck : collectionKey sing k = true
            · cases kvs with
              | nil => rw [hnilc rfl] at hck; exact Bool.noConfusion hck
              | cons p ps =>
                  unfold convStep
                  rw [(convertStep_coll hck).1 (p :: ps) (by simp), convert_len1,
                    setKey_fresh _ hfresh]
            · have hck' : collectionKey sing k = false := by simpa using hck
              unfold convStep
              rw [convertStep_noncoll_len1 hck' kvs, coerceScalar_str hcls,
                setKey_fresh _ hfresh]
        | bool b =>
            intro h
            rw [wfField_bool, Bool.and_eq_true] at h
            obtain ⟨hB, hck'⟩ := h
            have hck : collectionKey sing k = false := by simpa using hck'
            have hstrip : pyStrip (pyStrScalar (.bool b)) = pyStrScalar (.bool b) := by
              cases b <;> decide
            have hne : pyStrScalar (.bool b) ≠ "" := by cases b <;> decide
            refine ⟨.elem k [.text (pyStrScalar (.bool b))], [.s (pyStrScalar (.bool b))],
              rfl, walk_scalar_elem hstrip hne, ?_⟩
            intro kvs hfresh _
            unfold convStep
            rw [convertStep_noncoll_len1 hck kvs, coerceScalar_bool hB b,
              setKey_fresh _ hfresh]
        | dt t =>
            intro h
            rw [wfField_dt, Bool.and_eq_true] at h
            obtain ⟨hD, hck'⟩ := h
            have hck : collectionKey sing k = false := by simpa using hck'
            refine ⟨.elem k [.text (pyStrScalar (.dt t))], [.s (pyStrScalar (.dt t))], rfl,
              walk_scalar_elem (strip_pyStrDateTime t) (pyStrDateTime_ne_empty t), ?_⟩
            intro kvs hfresh _
            unfold convStep
            rw [convertStep_noncoll_len1 hck kvs]
            rw [show pyStrScalar (SVal.dt t) = pyStrDateTime t from rfl, coerceScalar_dt hD t,
              setKey_fresh _ hfresh]
        | date d =>
            intro h
            rw [wfField_date, Bool.and_eq_true] at h
            obtain ⟨hD, hck'⟩ := h
            have hck : collectionKey sing k = false := by simpa using hck'
            refine ⟨.elem k [.text (pyStrScalar (.date d))], [.s (pyStrScalar (.date d))], rfl,
              walk_scalar_elem (strip_pyStrDate d) (pyStrDate_ne_empty d), ?_⟩
            intro kvs hfresh _
            unfold convStep
            rw [convertStep_noncoll_len1 hck kvs]
            rw [show pyStrScalar (SVal.date d) = pyStrDate d from rfl, coerceScalar_date hD d,
              setKey_fresh _ hfresh]
        | obj f =>
            intro h
            rw [wfField_obj] at h
            obtain ⟨ns, henc, hlen, hconv⟩ := ihFs sing f (by simp at hsz; omega) h
            have hfne : 1 ≤ f.length := by
              cases f with
              | nil => rw [wfFields_nil] at h; exact Bool.noConfusion h
              | cons a b => simp
            refine ⟨.elem k ns, walk_dom_list ns, ?_, ?_, ?_⟩
            · simp [dict_to_xml_field, henc]
            · rw [walk_dom_list_cons_elem, walk_dom_list_nil]
            · intro kvs hfresh hnilc
              have hw : (walk_dom_list ns).length > 1 := by omega
              by_cases hck : collectionKey sing k = true
              · cases kvs with
                | nil => rw [hnilc rfl] at hck; exact Bool.noConfusion hck
                | cons p ps =>
                    unfold convStep
                    rw [(convertStep_coll hck).1 (p :: ps) (by simp), hconv,
                      setKey_fresh _ hfresh]
              · have hck' : collectionKey sing k = false := by simpa using hck
                unfold convStep
                rw [convertStep_noncoll_long hck' hw kvs, hconv, setKey_fresh _ hfresh]
        | arr items =>
            intro h
            rw [wfField_arr, Bool.and_eq_true, Bool.and_eq_true, Bool.and_eq_true] at h
            obtain ⟨⟨⟨hplural, hcoll⟩, hlen2⟩, hitems⟩ := h
            have hlen2' : 2 ≤ items.length := of_decide_eq_true hlen2
            obtain ⟨ns, henc, hwlen, hconv⟩ :=
              ihA sing (dropLastChar k) items (by simp at hsz; omega) hcoll hlen2' hitems
            refine ⟨.elem k ns, walk_dom_list ns, ?_, ?_, ?_⟩
            · simp [dict_to_xml_field, hplural, henc]
            · rw [walk_dom_list_cons_elem, walk_dom_list_nil]
            · intro kvs hfresh hnilc
              have hw : (walk_dom_list ns).length > 1 := by omega
              by_cases hck : collectionKey sing k = true
              · cases kvs with
                | nil => rw [hnilc rfl] at hck; exact Bool.noConfusion hck
                | cons p ps =>
                    unfold convStep
                    rw [(convertStep_coll hck).1 (p :: ps) (by simp), hconv,
                      setKey_fresh _ hfresh]
              · have hck' : collectionKey sing k = false := by simpa using hck
                unfold convStep
                rw [convertStep_noncoll_long hck' hw kvs, hconv, setKey_fresh _ hfresh]
        | junk =>
            intro h
            simp [wfField] at h
      -- whole field lists
      · intro sing f hsz h
        revert h
        cases f with
        | nil =>
            intro h
            rw [wfFields_nil] at h
            exact Bool.noConfusion h
        | cons kv rest =>
            obtain ⟨k, v⟩ := kv
            cases rest with
            | nil =>
                cases v with
                | str s =>
                    intro h
                    rw [wfFields_single, wfSingle_str, Bool.and_eq_true] at h
                    obtain ⟨hok, _⟩ := h
                    rw [strOk, Bool.and_eq_true, beq_iff_eq] at hok
                    have hstrip : pyStrip s = s := hok.1
                    have hne : s ≠ "" := by simpa using hok.2
                    refine ⟨[.elem k [.text s]], rfl, ?_, ?_⟩
                    · rw [walk_scalar_elem hstrip hne]
                      rfl
                    · rw [walk_scalar_elem hstrip hne, convert_len2, convert_len1]
                | obj f' =>
                    intro h
                    rw [wfFields_single, wfSingle_obj] at h
                    obtain ⟨ns', henc', hlen', hconv'⟩ :=
                      ihFs sing f' (by simp at hsz; omega) h
                    refine ⟨[.elem k ns'], ?_, ?_, ?_⟩
                    · simp [dict_to_xml_fields, dict_to_xml_field, henc']
                    · rw [walk_dom_list_cons_elem, walk_dom_list_nil]
                      rfl
                    · rw [walk_dom_list_cons_elem, walk_dom_list_nil, convert_len2, hconv']
                | arr items =>
                    intro h
                    rw [wfFields_single, wfSingle_arr, Bool.and_eq_true, Bool.and_eq_true,
                      Bool.and_eq_true] at h
                    obtain ⟨⟨⟨hplural, hcoll⟩, hlen2⟩, hitems⟩ := h
                    have hlen2' : 2 ≤ items.length := of_decide_eq_true hlen2
                    obtain ⟨ns, henc, hwlen, hconv⟩ :=
                      ihA sing (dropLastChar k) items (by simp at hsz; omega) hcoll
                        hlen2' hitems
                    refine ⟨[.elem k ns], ?_, ?_, ?_⟩
                    · simp [dict_to_xml_fields, dict_to_xml_field, hplural, henc]
                    · rw [walk_dom_list_cons_elem, walk_dom_list_nil]
                      rfl
                    · rw [walk_dom_list_cons_elem, walk_dom_list_nil, convert_len2, hconv]
                | bool b =>
                    intro h
                    rw [wfFields_single] at h
                    simp [wfSingle] at h
                | dt t =>
                    intro h
                    rw [wfFields_single] at h
                    simp [wfSingle] at h
                | date d =>
                    intro h
                    rw [wfFields_single] at h
                    simp [wfSingle] at h
                | junk =>
                    intro h
                    rw [wfFields_single] at h
                    simp [wfSingle] at h
            | cons kv2 rest2 =>
                intro h
                rw [wfFields_cons2, Bool.and_eq_true, Bool.and_eq_true, Bool.and_eq_true] at h
                obtain ⟨⟨⟨hnc', hfv⟩, hrest⟩, hdist⟩ := h
                have hnc : collectionKey sing k = false := by simpa using hnc'
                obtain ⟨node, w, henc1, hwalk1, hstep⟩ :=
                  ihF sing k v (by simp at hsz; omega) hfv
                have hdist' : allDistinct (keysOf [(k, v)] ++ keysOf (kv2 :: rest2)) = true := by
                  simpa [keysOf] using hdist
                obtain ⟨ns2, henc2, hlen2, hfold2⟩ :=
                  ihR sing (kv2 :: rest2) [(k, v)] (by simp at hsz ⊢; omega) (by simp)
                    hdist' hrest
                refine ⟨node :: ns2, ?_, ?_, ?_⟩
                · show (dict_to_xml_field k v).bind (fun n =>
                      (dict_to_xml_fields (kv2 :: rest2)).bind (fun ns => pure (n :: ns))) =
                    some (node :: ns2)
                  rw [henc1, henc2]
                  rfl
                · rw [show node :: ns2 = [node] ++ ns2 from rfl, walk_dom_list_append, hwalk1]
                  simp only [List.length_append, hlen2, List.length_cons, List.length_nil]
                  ring
                · rw [show node :: ns2 = [node] ++ ns2 from rfl, walk_dom_list_append, hwalk1]
                  have hbig : ((TupElem.s k :: TupElem.t w :: []) ++
                      walk_dom_list ns2).length > 2 := by
                    simp [hlen2]
                  rw [convert_gt2' sing _ hbig]
                  simp only [List.cons_append, List.nil_append]
                  rw [pairsOf_cons, List.foldl_cons]
                  rw [show convStep sing (Out.dictOut []) (k, w) =
                        Out.dictOut ([] ++ [(k, v)]) from
                      hstep [] rfl (fun _ => hnc)]
                  simp only [List.nil_append]
                  rw [hfold2]
                  rfl
      -- field-list tails folded onto a nonempty accumulator
      · intro sing rest acc hsz hacc hdist h
        revert hdist h
        cases rest with
        | nil =>
            intro hdist h
            refine ⟨[], rfl, by rw [walk_dom_list_nil]; rfl, ?_⟩
            rw [walk_dom_list_nil, pairsOf_nil]
            simp
        | cons kv rest2 =>
            obtain ⟨k, v⟩ := kv
            intro hdist h
            rw [wfRest_cons, Bool.and_eq_true] at h
            obtain ⟨hfv, hrest⟩ := h
            obtain ⟨node, w, henc1, hwalk1, hstep⟩ :=
              ihF sing k v (by simp at hsz; omega) hfv
            have hdist' : allDistinct (keysOf acc ++ k :: keysOf rest2) = true := by
              simpa [keysOf] using hdist
            obtain ⟨hfreshK, hdist2⟩ := allDistinct_append_cons hdist'
            have hfresh : hasKey acc k = false := by
              rw [hasKey_eq_contains]
              exact hfreshK
            have hdist3 : allDistinct (keysOf (acc ++ [(k, v)]) ++ keysOf rest2) = true := by
              simpa [keysOf] using hdist2
            obtain ⟨ns2, henc2, hlen2, hfold2⟩ :=
              ihR sing rest2 (acc ++ [(k, v)]) (by simp at hsz; omega) (by simp)
                hdist3 hrest
            refine ⟨node :: ns2, ?_, ?_, ?_⟩
            · show (dict_to_xml_field k v).bind (fun n =>
                  (dict_to_xml_fields rest2).bind (fun ns => pure (n :: ns))) =
                some (node :: ns2)
              rw [henc1, henc2]
              rfl
            · rw [show node :: ns2 = [node] ++ ns2 from rfl, walk_dom_list_append, hwalk1]
              simp only [List.length_append, hlen2, List.length_cons, List.length_nil]
              ring
            · rw [show node :: ns2 = [node] ++ ns2 from rfl, walk_dom_list_append, hwalk1]
              simp only [List.cons_append, List.nil_append]
              rw [pairsOf_cons, List.foldl_cons]
              rw [show convStep sing (Out.dictOut acc) (k, w) =
                    Out.dictOut (acc ++ [(k, v)]) from
                  hstep acc hfresh (fun hacc0 => absurd hacc0 hacc)]
              rw [hfold2]
              simp [List.append_assoc]
      -- item lists folded onto a list accumulator
      · intro sing pn items vs hsz hcoll h
        revert h
        cases items with
        | nil =>
            intro h
            refine ⟨[], rfl, by rw [walk_dom_list_nil]; rfl, ?_⟩
            rw [walk_dom_list_nil, pairsOf_nil]
            simp
        | cons it rest =>
            cases it with
            | obj f =>
                intro h
                rw [wfItems_cons_obj, Bool.and_eq_true] at h
                obtain ⟨hf, hrest⟩ := h
                obtain ⟨nsf, hencf, hlenf, hconvf⟩ :=
                  ihFs sing f (by simp at hsz; omega) hf
                obtain ⟨ns2, henc2, hlen2, hfold2⟩ :=
                  ihI sing (pluralFix pn) rest (vs ++ [.obj f]) (by simp at hsz; omega)
                    (by rw [pluralFix_idem]; exact hcoll) hrest
                refine ⟨.elem (pluralFix pn) nsf :: ns2, ?_, ?_, ?_⟩
                · simp [wrapItems, hencf, henc2]
                · rw [walk_dom_list_cons_elem]
                  simp only [List.length_cons, hlen2]
                  ring
                · rw [walk_dom_list_cons_elem, pairsOf_cons, List.foldl_cons]
                  have hone : convStep sing (.listOut vs) (pluralFix pn, walk_dom_list nsf) =
                      .listOut (vs ++ [SVal.obj f]) := by
                    unfold convStep
                    rw [hconvf]
                    exact (convertStep_coll hcoll).2.2 vs
                  rw [hone, hfold2]
                  simp
            | str s => intro h; simp [wfItems] at h
            | bool b => intro h; simp [wfItems] at h
            | dt t => intro h; simp [wfItems] at h
            | date d => intro h; simp [wfItems] at h
            | arr l => intro h; simp [wfItems] at h
            | junk => intro h; simp [wfItems] at h
      -- two-or-more item lists decoded from scratch
      · intro sing pn items hsz hcoll hlen h
        revert hlen h
        cases items with
        | nil =>
            intro hlen h
            simp at hlen
        | cons it rest =>
            cases it with
            | obj f =>
                intro hlen h
                rw [wfItems_cons_obj, Bool.and_eq_true] at h
                obtain ⟨hf, hrest⟩ := h
                obtain ⟨nsf, hencf, hlenf, hconvf⟩ :=
                  ihFs sing f (by simp at hsz; omega) hf
                obtain ⟨ns2, henc2, hlen2, hfold2⟩ :=
                  ihI sing (pluralFix pn) rest [.obj f] (by simp at hsz; omega)
                    (by rw [pluralFix_idem]; exact hcoll) hrest
                have hrestlen : 1 ≤ rest.length := by
                  simp only [List.length_cons] at hlen
                  omega
                refine ⟨.elem (pluralFix pn) nsf :: ns2, ?_, ?_, ?_⟩
                · simp [wrapItems, hencf, henc2]
                · rw [walk_dom_list_cons_elem]
                  simp only [List.length_cons, hlen2]
                  ring
                · rw [walk_dom_list_cons_elem]
                  have hbig : (TupElem.s (pluralFix pn) ::
                      TupElem.t (walk_dom_list nsf) :: walk_dom_list ns2).length > 2 := by
                    simp only [List.length_cons, hlen2]
                    omega
                  rw [convert_gt2' sing _ hbig, pairsOf_cons, List.foldl_cons]
                  have hone : convStep sing (.dictOut []) (pluralFix pn, walk_dom_list nsf) =
                      .listOut [SVal.obj f] := by
                    unfold convStep
                    rw [hconvf]
                    exact (convertStep_coll hcoll).2.1
                  rw [hone, hfold2]
                  rfl
            | str s => intro hlen h; simp [wfItems] at h
            | bool b => intro hlen h; simp [wfItems] at h
            | dt t => intro hlen h; simp [wfItems] at h
            | date d => intro hlen h; simp [wfItems] at h
            | arr l => intro hlen h; simp [wfItems] at h
            | junk => intro hlen h; simp [wfItems] at h

/-- A single well-formed field survives the encode/decode round trip. -/
theorem rt_field (sing k : String) (v : SVal) (h : wfField sing k v = true) :
    ∃ node w, dict_to_xml_field k v = some node ∧
      walk_dom_list [node] = [.s k, .t w] ∧
      ∀ kvs : List (String × SVal), hasKey kvs k = false →
        (kvs = [] → collectionKey sing k = false) →
        convStep sing (.dictOut kvs) (k, w) = .dictOut (kvs ++ [(k, v)]) :=
  (rt_main (sizeOf v)).1 sing k v le_rfl h

/-- A well-formed field list survives the encode/decode round trip. -/
theorem rt_fields (sing : String) (f : List (String × SVal))
    (h : wfFields sing f = true) :
    ∃ ns, dict_to_xml_fields f = some ns ∧
      (walk_dom_list ns).length = 2 * f.length ∧
      convert_to_dict sing (walk_dom_list ns) = .obj f :=
  (rt_main (sizeOf f)).2.1 sing f le_rfl h

/-- **C1** (amended): the decode∘encode round trip holds for records
satisfying the claim's classification/pluralization hypotheses tightened
to `wfFields`: strings non-empty and strip-invariant, mappings non-empty,
classified scalars kept away from collection-tag keys and never alone in a
one-field mapping, sequences holding at least two well-formed mappings
under correctly pluralized keys, collection-tag keys not first among two
or more siblings, and sibling keys distinct.  Encoding such a record under
any root tag succeeds and decoding the resulting tree's contents restores
the record exactly. -/
theorem roundtrip_spec (m : Manager) (rootTag : String)
    (data : List (String × SVal)) (h : wfFields m.singular data = true) :
    ∃ t, encodeRecord rootTag data = some t ∧ m.decode t = .obj data := by
  obtain ⟨ns, henc, hlen, hconv⟩ := rt_fields m.singular data h
  refine ⟨.elem rootTag ns, ?_, ?_⟩
  · simp [encodeRecord, Manager.dict_to_xml, henc]
  · simp only [Manager.decode]
    exact hconv

/-- The round-trip theorem applied to a concrete two-field contact record
with a two-element phone list. -/
theorem roundtrip_spec_witness :
    wfFields (Manager.create "Contacts" XERO_API_URL "core").singular
      [("Name", .str "John"),
       ("Phones", .arr [.obj [("PhoneNumber", .str "123")],
                        .obj [("PhoneNumber", .str "456")]])] = true ∧
    ∃ t, encodeRecord "Contact"
          [("Name", .str "John"),
           ("Phones", .arr [.obj [("PhoneNumber", .str "123")],
                            .obj [("PhoneNumber", .str "456")]])] = some t ∧
        (Manager.create "Contacts" XERO_API_URL "core").decode t =
          .obj [("Name", .str "John"),
                ("Phones", .arr [.obj [("PhoneNumber", .str "123")],
                                 .obj [("PhoneNumber", .str "456")]])] :=
  ⟨by decide,
   roundtrip_spec (Manager.create "Contacts" XERO_API_URL "core") "Contact"
     [("Name", .str "John"),
      ("Phones", .arr [.obj [("PhoneNumber", .str "123")],
                       .obj [("PhoneNumber", .str "456")]])] (by decide)⟩
